import Mathlib

/-!
Verification development for the lumescope indexing service.

This file gives a shallow embedding, in Lean, of the core pure logic of the
service: the `latest-by-height` derivation, coin-string parsing, host
validation, the two supernode write entry points, the read-path filter
predicates, the transaction DTO assembly, the settlement-transfer selection
cascade, and the action-transaction enricher loop.  Database tables are
modelled as finite association data (the `action_transactions` table, whose
key is UNIQUE(actionID, txType), as a key-indexed partial map), Go machine
integers as `Int`/`Nat` (the parsers carry the explicit 64-bit range check),
`DOUBLE PRECISION` payload columns as `Rat` (no arithmetic is ever performed
on them here, only equality framing), timestamps as `Int` epoch values and
JSONB blobs as tagged values.  Each Lean definition is translated from the
corresponding Go function; theorems at the end settle the specification
claims against these definitions.
-/

namespace Lumescope

/-! ## Go strconv.ParseInt (base 10, bitSize 64)

`parseInt64` models Go `strconv.ParseInt(s, 10, 64)` as used by
`latestState`, `latestIPAddress` and the sync loops: optional single sign,
one or more ASCII decimal digits, nothing else, and the value must fit a
signed 64-bit integer (Go reports ErrRange otherwise, which callers treat
as a failed parse). -/

def isDigitCh (c : Char) : Bool :=
  '0' ≤ c && c ≤ '9'

def digitVal (c : Char) : Nat :=
  c.toNat - '0'.toNat

def digitsToNat : List Char → Nat → Option Nat
  | [], acc => some acc
  | c :: rest, acc =>
    if isDigitCh c then digitsToNat rest (acc * 10 + digitVal c) else none

def parseInt64Chars (cs : List Char) : Option Int :=
  match cs with
  | [] => none
  | '+' :: rest =>
    match rest with
    | [] => none
    | _ =>
      match digitsToNat rest 0 with
      | some n => if n ≤ 2 ^ 63 - 1 then some (Int.ofNat n) else none
      | none => none
  | '-' :: rest =>
    match rest with
    | [] => none
    | _ =>
      match digitsToNat rest 0 with
      | some n => if n ≤ 2 ^ 63 then some (-(Int.ofNat n)) else none
      | none => none
  | _ =>
    match digitsToNat cs 0 with
    | some n => if n ≤ 2 ^ 63 - 1 then some (Int.ofNat n) else none
    | none => none

def parseInt64 (s : String) : Option Int :=
  parseInt64Chars s.data

/-! ## latestState / latestIPAddress (background/sync.go)

The Go code scans the history array with a running `(maxIdx, maxHeight)`
pair, `maxHeight` starting at 0, updating on a strict `>` comparison and
skipping entries whose height string fails to parse. -/

structure SupernodeState where
  state : String
  height : String
deriving Repr, DecidableEq

structure PrevIPAddress where
  address : String
  height : String
deriving Repr, DecidableEq

/-- The index-selection scan shared by `latestState` and `latestIPAddress`:
walks the height strings carrying the current index `i`, best index `best`
and best height `bh` (initially 0), exactly as the Go `for i, s := range`
loop does. -/
def bestHeightScan : List String → Nat → Nat → Int → Nat
  | [], _, best, _ => best
  | h :: rest, i, best, bh =>
    match parseInt64 h with
    | some v => if v > bh then bestHeightScan rest (i + 1) i v
                else bestHeightScan rest (i + 1) best bh
    | none => bestHeightScan rest (i + 1) best bh

def defaultState : SupernodeState := ⟨"", ""⟩

def defaultPrevIP : PrevIPAddress := ⟨"", ""⟩

/-- Go `latestState`: returns `("SUPERNODE_STATE_UNKNOWN", "")` on an empty
history, otherwise the `(state, height)` of the scan-selected entry. -/
def latestState (states : List SupernodeState) : String × String :=
  match states with
  | [] => ("SUPERNODE_STATE_UNKNOWN", "")
  | _ =>
    let idx := bestHeightScan (states.map (·.height)) 0 0 0
    ((states.getD idx defaultState).state, (states.getD idx defaultState).height)

/-- Go `latestIPAddress`: returns `""` on an empty history, otherwise the
address of the scan-selected entry. -/
def latestIPAddress (addresses : List PrevIPAddress) : String :=
  match addresses with
  | [] => ""
  | _ =>
    let idx := bestHeightScan (addresses.map (·.height)) 0 0 0
    (addresses.getD idx defaultPrevIP).address

/-- Effective score of a height string under the scan: the parsed value when
it parses to something positive, and 0 (the neutral initial value, which
never wins a strict comparison) otherwise. -/
def heightScore (h : String) : Int :=
  match parseInt64 h with
  | some v => if 0 < v then v else 0
  | none => 0

/-- Maximum height score of a list of height strings (0 for the empty list). -/
def maxHeightScore (hs : List String) : Int :=
  hs.foldr (fun h m => max (heightScore h) m) 0

/-! ## Coin-string parsing and PriceField decoding (lumera/client.go)

Go `parseCoinString` scans the maximal leading run of ASCII digit bytes and
splits the string there; `PriceField.UnmarshalJSON` first tries the
`{"denom":…,"amount":…}` struct form (accepted when either field is
non-empty), then the bare-string form, and otherwise leaves both fields
empty. -/

/-- Leading-digit split on the character list: returns (digit prefix, rest). -/
def spanDigits : List Char → List Char × List Char
  | [] => ([], [])
  | c :: rest =>
    if isDigitCh c then
      let p := spanDigits rest
      (c :: p.1, p.2)
    else ([], c :: rest)

/-- Go `parseCoinString`: `"10090ulume"` ↦ `("10090", "ulume")`.  The Go
empty-string early return coincides with the scan result on `""`. -/
def parseCoinString (s : String) : String × String :=
  let p := spanDigits s.data
  (String.mk p.1, String.mk p.2)

/-- The JSON shapes a `price` field may arrive in: an object carrying
`denom`/`amount` members (absent members decode to `""`), or a bare string. -/
inductive PriceJSON where
  | obj (denom amount : String)
  | str (s : String)
deriving Repr, DecidableEq

/-- Go `PriceField.UnmarshalJSON`, returning the resulting
`(denom, amount)` pair.  The struct attempt succeeds on the object form; if
both decoded fields are empty the code falls through to the string attempt,
which fails on an object and leaves both fields empty — the same result as
keeping the empty struct fields, so the object arm is unconditional.  A bare
string fails the struct attempt and is split by `parseCoinString`. -/
def unmarshalPriceField : PriceJSON → String × String
  | .obj d a => (d, a)
  | .str s =>
    let p := parseCoinString s
    (p.2, p.1)

/-! ## Settlement-transfer selection (lumera/client.go)

`parseTransferEvent` folds a transfer event's attributes into a
`TransferFlow` (later attributes overwrite earlier ones, as in the Go
`for`/`switch`); `extractTransferFlow` collects all transfer events from the
top-level event list and the per-log event lists, then selects the
settlement transfer through the type-specific preference cascade. -/

structure TransferFlow where
  amount : Option String
  denom : Option String
  payer : Option String
  payee : Option String
deriving Repr, DecidableEq

structure Attribute where
  key : String
  value : String
deriving Repr, DecidableEq

structure Event where
  type : String
  attributes : List Attribute
deriving Repr, DecidableEq

structure ABCILog where
  events : List Event
deriving Repr, DecidableEq

def emptyTransferFlow : TransferFlow := ⟨none, none, none, none⟩

def applyTransferAttribute (tf : TransferFlow) (attr : Attribute) : TransferFlow :=
  if attr.key = "sender" then { tf with payer := some attr.value }
  else if attr.key = "recipient" then { tf with payee := some attr.value }
  else if attr.key = "amount" then
    let p := parseCoinString attr.value
    let tf := if p.1 ≠ "" then { tf with amount := some p.1 } else tf
    if p.2 ≠ "" then { tf with denom := some p.2 } else tf
  else tf

/-- Go `parseTransferEvent`: builds the flow from the attributes and returns
it only when at least one of sender/recipient was present. -/
def parseTransferEvent (attrs : List Attribute) : Option TransferFlow :=
  let tf := attrs.foldl applyTransferAttribute emptyTransferFlow
  if tf.payer = none ∧ tf.payee = none then none else some tf

/-- Transfer events collected from a single event list, in order. -/
def transfersOfEvents (events : List Event) : List TransferFlow :=
  (events.filter (fun e => e.type = "transfer")).filterMap
    (fun e => parseTransferEvent e.attributes)

/-- All transfers of a transaction: top-level events first, then the events
of each execution log, exactly as the two Go loops append them. -/
def collectTransfers (events : List Event) (logs : List ABCILog) : List TransferFlow :=
  transfersOfEvents events ++ (logs.map (fun l => transfersOfEvents l.events)).flatten

/-- A Go `for … { if cond { return &tf } }` loop over the transfer list. -/
def findTransfer (p : TransferFlow → Bool) : List TransferFlow → Option TransferFlow
  | [] => none
  | tf :: rest => if p tf then some tf else findTransfer p rest

/-- Go `extractTransferFlow`.  `creator` and `supernodeAccount` are the
fields of the `db.Action` argument that the cascade consults. -/
def extractTransferFlow (creator supernodeAccount : String) (txType : String)
    (events : List Event) (logs : List ABCILog)
    (moduleAddr txSigner : String) : Option TransferFlow :=
  let transfers := collectTransfers events logs
  if transfers.isEmpty then none
  else if txType = "register" then
    match (if moduleAddr ≠ "" then
             findTransfer (fun tf => tf.payee = some moduleAddr) transfers
           else none) with
    | some tf => some tf
    | none =>
      match findTransfer (fun tf => tf.payer = some creator) transfers with
      | some tf => some tf
      | none => transfers.head?
  else if txType = "finalize" ∨ txType = "approve" then
    match (if moduleAddr ≠ "" ∧ txSigner ≠ "" then
             findTransfer (fun tf => tf.payer = some moduleAddr ∧ tf.payee = some txSigner) transfers
           else none) with
    | some tf => some tf
    | none =>
    match (if moduleAddr ≠ "" ∧ supernodeAccount ≠ "" then
             findTransfer (fun tf => tf.payer = some moduleAddr ∧ tf.payee = some supernodeAccount) transfers
           else none) with
    | some tf => some tf
    | none =>
    match (if moduleAddr ≠ "" then
             findTransfer (fun tf => tf.payer = some moduleAddr) transfers
           else none) with
    | some tf => some tf
    | none =>
    match (if txSigner ≠ "" then
             findTransfer (fun tf => tf.payee = some txSigner) transfers
           else none) with
    | some tf => some tf
    | none =>
    match (if supernodeAccount ≠ "" then
             findTransfer (fun tf => tf.payee = some supernodeAccount) transfers
           else none) with
    | some tf => some tf
    | none =>
    match findTransfer (fun tf => tf.payer ≠ none ∧ tf.payer ≠ some creator) transfers with
    | some tf => some tf
    | none => transfers.head?
  else none

/-- Specification-side cascade for `register`, phrased with `List.find?`:
first transfer whose recipient is the module address (when known), else the
first whose sender is the creator, else the first transfer. -/
def specRegisterSelect (creator moduleAddr : String)
    (transfers : List TransferFlow) : Option TransferFlow :=
  (if moduleAddr ≠ "" then transfers.find? (fun tf => tf.payee = some moduleAddr) else none)
    <|> transfers.find? (fun tf => tf.payer = some creator)
    <|> transfers.head?

/-- Specification-side cascade for `finalize`/`approve`, phrased with
`List.find?`: sender=module ∧ recipient=signer, else sender=module ∧
recipient=assigned supernode, else sender=module, else recipient=signer,
else recipient=assigned supernode, else any transfer whose sender is known
and is not the creator, else the first transfer; a preference that refers to
the module address, the signer or the assigned supernode applies only when
that party is known (non-empty). -/
def specSettleSelect (creator supernodeAccount moduleAddr txSigner : String)
    (transfers : List TransferFlow) : Option TransferFlow :=
  (if moduleAddr ≠ "" ∧ txSigner ≠ "" then
      transfers.find? (fun tf => tf.payer = some moduleAddr ∧ tf.payee = some txSigner)
    else none)
    <|> (if moduleAddr ≠ "" ∧ supernodeAccount ≠ "" then
          transfers.find? (fun tf => tf.payer = some moduleAddr ∧ tf.payee = some supernodeAccount)
        else none)
    <|> (if moduleAddr ≠ "" then
          transfers.find? (fun tf => tf.payer = some moduleAddr)
        else none)
    <|> (if txSigner ≠ "" then transfers.find? (fun tf => tf.payee = some txSigner) else none)
    <|> (if supernodeAccount ≠ "" then
          transfers.find? (fun tf => tf.payee = some supernodeAccount)
        else none)
    <|> transfers.find? (fun tf => tf.payer ≠ none ∧ tf.payer ≠ some creator)
    <|> transfers.head?

/-! ## Host validation (background/sync.go isValidHost)

`isValidHost` first consults Go `net.ParseIP` and otherwise runs a
character-class scan over the hostname.  `net.ParseIP` (modelled here after
the Go standard library) dispatches on the first `.`/`:`/`%` character:
dotted-quad IPv4 with 1–3 digit fields, values ≤ 255 and no leading zeros;
IPv6 as colon-separated groups of 1–4 hex digits with at most one `::`, an
optional embedded IPv4 tail, and no zone (zoned addresses are rejected by
`net.ParseIP`). -/

def isAlphaCh (c : Char) : Bool :=
  ('a' ≤ c && c ≤ 'z') || ('A' ≤ c && c ≤ 'Z')

def isHexCh (c : Char) : Bool :=
  isDigitCh c || ('a' ≤ c && c ≤ 'f') || ('A' ≤ c && c ≤ 'F')

/-- One dotted-quad field: non-empty, all digits, no leading zero (a lone
`0` is fine), value at most 255. -/
def ipv4FieldOk (f : List Char) : Bool :=
  match f with
  | [] => false
  | c :: rest =>
    (decide (rest = []) || decide (c ≠ '0')) &&
      match digitsToNat (c :: rest) 0 with
      | some n => decide (n ≤ 255)
      | none => false

/-- Dotted-quad IPv4 literal: exactly four valid fields. -/
def ipv4Valid (cs : List Char) : Bool :=
  match cs.splitOn '.' with
  | [a, b, c, d] => ipv4FieldOk a && ipv4FieldOk b && ipv4FieldOk c && ipv4FieldOk d
  | _ => false

/-- Final acceptance check of the IPv6 parser: with fewer than 16 address
bytes an `::` must have occurred; with all 16 bytes present it must not. -/
def v6Finalize (i : Nat) (ell : Option Nat) : Bool :=
  if i < 16 then ell.isSome else ell.isNone

/-- The group-consuming loop of the IPv6 parser (Go `parseIPv6`): `s` is the
remaining input, `i` the number of address bytes already produced, `ell` the
byte position of the `::` if one was seen.  Fuel 9 suffices since every
recursive call adds two bytes and stops at 16. -/
def v6Loop : Nat → List Char → Nat → Option Nat → Bool
  | 0, _, _, _ => false
  | fuel + 1, s, i, ell =>
    let digits := s.takeWhile isHexCh
    if digits.length = 0 ∨ 4 < digits.length then false
    else
      match s.drop digits.length with
      | '.' :: _ =>
        if (ell.isSome = true ∨ i = 12) ∧ i + 4 ≤ 16 ∧ ipv4Valid s = true then
          v6Finalize (i + 4) ell
        else false
      | [] => v6Finalize (i + 2) ell
      | ':' :: rest2 =>
        match rest2 with
        | [] => false
        | ':' :: rest3 =>
          if ell.isSome then false
          else
            match rest3 with
            | [] => v6Finalize (i + 2) (some (i + 2))
            | _ => if i + 2 < 16 then v6Loop fuel rest3 (i + 2) (some (i + 2)) else false
        | _ => if i + 2 < 16 then v6Loop fuel rest2 (i + 2) ell else false
      | _ => false

/-- IPv6 literal acceptance of `net.ParseIP`: no zone, optional leading
`::` (alone it denotes the unspecified address), then the group loop. -/
def v6Valid (cs : List Char) : Bool :=
  if cs.contains '%' then false
  else
    match cs with
    | ':' :: ':' :: rest =>
      match rest with
      | [] => true
      | _ => v6Loop 9 rest 0 (some 0)
    | _ => v6Loop 9 cs 0 none

/-- First dispatch character of `net.ParseIP`: the first `.`, `:` or `%`. -/
def ipDispatch : List Char → Option Char
  | [] => none
  | c :: rest => if c = '.' ∨ c = ':' ∨ c = '%' then some c else ipDispatch rest

/-- Model of Go `net.ParseIP s != nil`. -/
def goParseIPValid (cs : List Char) : Bool :=
  match ipDispatch cs with
  | some '.' => ipv4Valid cs
  | some ':' => v6Valid cs
  | _ => false

/-- The hostname scan of `isValidHost`, carrying the previous character
(`none` at the first position; Go tracks the index and a `prevChar` byte,
which coincide with this) and the letter/dot flags. -/
def hostScan : Option Char → Bool → Bool → List Char → Bool
  | _, hasLetter, hasDot, [] => hasLetter && hasDot
  | prev, hasLetter, hasDot, c :: rest =>
    if isAlphaCh c then hostScan (some c) true hasDot rest
    else if c = '.' then
      if prev = none ∨ rest = [] ∨ prev = some '.' then false
      else hostScan (some '.') hasLetter true rest
    else if isDigitCh c then hostScan (some c) hasLetter hasDot rest
    else if c = '-' then
      if prev = none ∨ rest = [] then false
      else hostScan (some c) hasLetter hasDot rest
    else false

/-- The hostname arm of Go `isValidHost`: length 1–253, then the scan. -/
def hostnameValidGo (cs : List Char) : Bool :=
  if cs.length = 0 ∨ 253 < cs.length then false
  else hostScan none false false cs

/-- Go `isValidHost`: a parseable IP literal, or a valid hostname. -/
def isValidHost (s : String) : Bool :=
  if goParseIPValid s.data then true else hostnameValidGo s.data

def validHostCh (c : Char) : Bool :=
  isAlphaCh c || isDigitCh c || c = '.' || c = '-'

/-- Declarative hostname predicate, following the specification text: length
1–253, only letters/digits/hyphens/dots, at least one letter, at least one
dot, no leading or trailing dot or hyphen, no consecutive dots. -/
def specHostname (cs : List Char) : Prop :=
  1 ≤ cs.length ∧ cs.length ≤ 253 ∧
  (∀ c ∈ cs, validHostCh c = true) ∧
  (∃ c ∈ cs, isAlphaCh c = true) ∧
  '.' ∈ cs ∧
  (∀ c, cs.head? = some c → c ≠ '.' ∧ c ≠ '-') ∧
  (∀ c, cs.getLast? = some c → c ≠ '.' ∧ c ≠ '-') ∧
  List.Chain' (fun a b => ¬(a = '.' ∧ b = '.')) cs

instance specHostnameDecidable (cs : List Char) : Decidable (specHostname cs) := by
  unfold specHostname
  infer_instance

/-- Boundary condition the scan enforces on the first remaining character:
a dot must not open the string nor follow a dot, a hyphen must not open the
string. -/
def headOk (prev : Option Char) : List Char → Prop
  | [] => True
  | c :: _ => (c = '.' → prev ≠ none ∧ prev ≠ some '.') ∧ (c = '-' → prev ≠ none)

/-- Boundary condition the scan enforces on the final character: it is
neither a dot nor a hyphen. -/
def lastOk : List Char → Prop
  | [] => True
  | [c] => c ≠ '.' ∧ c ≠ '-'
  | _ :: c :: rest => lastOk (c :: rest)

/-- The structural part of the hostname scan, with the letter/dot flags
stripped out: character classes plus the dot/hyphen placement rules. -/
def structOk (prev : Option Char) : List Char → Bool
  | [] => true
  | c :: rest =>
    if isAlphaCh c then structOk (some c) rest
    else if c = '.' then
      if prev = none ∨ rest = [] ∨ prev = some '.' then false
      else structOk (some '.') rest
    else if isDigitCh c then structOk (some c) rest
    else if c = '-' then
      if prev = none ∨ rest = [] then false
      else structOk (some c) rest
    else false

/-! ## Supernode rows and the two write entry points (db/db.go)

The `supernodes` table is modelled as a record per row.  `DOUBLE PRECISION`
columns are carried as `Option Rat`, `INTEGER`/`BIGINT` as `Option Int`,
nullable text as `Option String` and timestamps as `Option Int` epoch
values; `failedProbeCounter` is `INTEGER NOT NULL DEFAULT 0` and only ever
written with 0 or a successor, hence `Nat`.  The `metricsReport` JSONB
column holds either the prober's report (a JSON object with a `ports`
member) or the chain's metrics aggregate (which has no `ports` member);
the tag distinguishes the two so the read path's
`metricsReport->'ports'->>'port1'` access can be evaluated. -/

structure PortsInfo where
  port1 : Bool
  port1Num : Int
  p2p : Bool
  p2pPortNum : Int
deriving Repr, DecidableEq

inductive MetricsBlob where
  /-- Report written by the probe loop: `ports` object plus the status
  summary serialised alongside it. -/
  | probeReport (ports : PortsInfo) (statusJson : String)
  /-- Metrics aggregate forwarded from the chain listing by the supernode
  sync loop; carries no `ports` member. -/
  | chainAggregate (raw : String)
deriving Repr, DecidableEq

structure SupernodeRow where
  supernodeAccount : String
  validatorAddress : String
  validatorMoniker : String
  currentState : String
  currentStateHeight : String
  ipAddress : String
  p2pPort : Int
  protocolVersion : String
  actualVersion : String
  cpuUsagePercent : Option Rat
  cpuCores : Option Int
  memoryTotalGb : Option Rat
  memoryUsedGb : Option Rat
  memoryUsagePercent : Option Rat
  storageTotalBytes : Option Int
  storageUsedBytes : Option Int
  storageUsagePercent : Option Rat
  hardwareSummary : Option String
  peersCount : Option Int
  uptimeSeconds : Option Int
  rank : Option Int
  registeredServices : Option String
  runningTasks : Option String
  stateHistory : String
  evidence : String
  prevIpAddresses : String
  lastStatusCheck : Option Int
  isStatusApiAvailable : Bool
  metricsReport : Option MetricsBlob
  lastSuccessfulProbe : Option Int
  failedProbeCounter : Nat
  lastKnownActualVersion : Option String
  updatedAt : Int
deriving Repr, DecidableEq

/-- The argument record of `UpsertSupernode` (db.SupernodeDB), restricted to
the fields consulted by the `ON CONFLICT … DO UPDATE` branch. -/
structure SupernodeDB where
  supernodeAccount : String
  validatorAddress : String
  validatorMoniker : String
  currentState : String
  currentStateHeight : String
  ipAddress : String
  p2pPort : Int
  protocolVersion : String
  stateHistory : String
  evidence : String
  prevIpAddresses : String
  metricsReport : Option MetricsBlob
  registeredServices : Option String
  runningTasks : Option String
deriving Repr, DecidableEq

/-- SQL `COALESCE(NULLIF(new, ''), old)` over a non-null text column. -/
def coalesceNullif (newV oldV : String) : String :=
  if newV ≠ "" then newV else oldV

/-- SQL `COALESCE(NULLIF(new, ''), old)` over a nullable text column. -/
def coalesceNullifOpt (newV : String) (oldV : Option String) : Option String :=
  if newV ≠ "" then some newV else oldV

/-- The `ON CONFLICT ("supernodeAccount") DO UPDATE SET` branch of
`UpsertSupernode`, applied to an existing row: updates exactly the
chain-owned columns, `validatorMoniker` through `COALESCE(NULLIF(…,''),…)`,
and the three JSONB columns `metricsReport` / `registeredServices` /
`runningTasks` through `COALESCE(EXCLUDED.…, old)`. -/
def upsertSupernodeConflict (row : SupernodeRow) (sn : SupernodeDB) (now : Int) :
    SupernodeRow :=
  { row with
    validatorAddress := sn.validatorAddress
    validatorMoniker := coalesceNullif sn.validatorMoniker row.validatorMoniker
    currentState := sn.currentState
    currentStateHeight := sn.currentStateHeight
    ipAddress := sn.ipAddress
    p2pPort := sn.p2pPort
    protocolVersion := sn.protocolVersion
    stateHistory := sn.stateHistory
    evidence := sn.evidence
    prevIpAddresses := sn.prevIpAddresses
    metricsReport := sn.metricsReport.orElse (fun _ => row.metricsReport)
    registeredServices := sn.registeredServices.orElse (fun _ => row.registeredServices)
    runningTasks := sn.runningTasks.orElse (fun _ => row.runningTasks)
    updatedAt := now }

/-- The argument record of `UpdateSupernodeProbeData`
(db.SupernodeProbeUpdate). -/
structure SupernodeProbeUpdate where
  supernodeAccount : String
  actualVersion : String
  cpuUsagePercent : Option Rat
  cpuCores : Option Int
  memoryTotalGb : Option Rat
  memoryUsedGb : Option Rat
  memoryUsagePercent : Option Rat
  storageTotalBytes : Option Int
  storageUsedBytes : Option Int
  storageUsagePercent : Option Rat
  hardwareSummary : Option String
  peersCount : Option Int
  uptimeSeconds : Option Int
  rank : Option Int
  lastStatusCheck : Option Int
  isStatusAPIAvailable : Bool
  metricsReport : Option MetricsBlob
  probeTimeUTC : Int
deriving Repr, DecidableEq

/-- `UpdateSupernodeProbeData` applied to the matching row (primary path;
the one-time reduced-column fallback for a mid-migration schema is not
modelled).  On success (`IsStatusAPIAvailable`) it stamps
`lastSuccessfulProbe`, zeroes `failedProbeCounter` and folds the new
version into `lastKnownActualVersion`; on failure it increments
`failedProbeCounter` (`COALESCE(c,0)+1` over the `NOT NULL DEFAULT 0`
column is `c+1`) and leaves `lastSuccessfulProbe` and
`lastKnownActualVersion` alone.  Both branches stamp `lastStatusCheck` and
fold `actualVersion` through `COALESCE(NULLIF(new,''), old)`. -/
def updateSupernodeProbeData (row : SupernodeRow) (u : SupernodeProbeUpdate)
    (now : Int) : SupernodeRow :=
  if u.isStatusAPIAvailable then
    { row with
      actualVersion := coalesceNullif u.actualVersion row.actualVersion
      cpuUsagePercent := u.cpuUsagePercent
      cpuCores := u.cpuCores
      memoryTotalGb := u.memoryTotalGb
      memoryUsedGb := u.memoryUsedGb
      memoryUsagePercent := u.memoryUsagePercent
      storageTotalBytes := u.storageTotalBytes
      storageUsedBytes := u.storageUsedBytes
      storageUsagePercent := u.storageUsagePercent
      hardwareSummary := u.hardwareSummary
      peersCount := u.peersCount
      uptimeSeconds := u.uptimeSeconds
      rank := u.rank
      lastStatusCheck := u.lastStatusCheck
      isStatusApiAvailable := u.isStatusAPIAvailable
      metricsReport := u.metricsReport
      lastSuccessfulProbe := some u.probeTimeUTC
      failedProbeCounter := 0
      lastKnownActualVersion := coalesceNullifOpt u.actualVersion row.lastKnownActualVersion
      updatedAt := now }
  else
    { row with
      actualVersion := coalesceNullif u.actualVersion row.actualVersion
      cpuUsagePercent := u.cpuUsagePercent
      cpuCores := u.cpuCores
      memoryTotalGb := u.memoryTotalGb
      memoryUsedGb := u.memoryUsedGb
      memoryUsagePercent := u.memoryUsagePercent
      storageTotalBytes := u.storageTotalBytes
      storageUsedBytes := u.storageUsedBytes
      storageUsagePercent := u.storageUsagePercent
      hardwareSummary := u.hardwareSummary
      peersCount := u.peersCount
      uptimeSeconds := u.uptimeSeconds
      rank := u.rank
      lastStatusCheck := u.lastStatusCheck
      isStatusApiAvailable := u.isStatusAPIAvailable
      metricsReport := u.metricsReport
      failedProbeCounter := row.failedProbeCounter + 1
      updatedAt := now }

/-! ## Read-path filter predicates (db/db.go)

`listSupernodeMetricsFiltered` builds its WHERE clause from the filter; the
row predicate below translates the condition list.  The JSON accesses
`metricsReport->'ports'->>'port1'` and `…->>'p2p'` yield SQL NULL unless the
stored blob is a probe report, in which case they yield `'true'`/`'false'`;
comparisons against NULL never select a row. -/

structure SupernodeMetricsFilter where
  currentState : String
  chainState : Option String
  status : String
  version : Option String
  minFailed : Nat
  cursorAccount : Option String
deriving Repr, DecidableEq

/-- `metricsReport->'ports'->>'port1'` as an optional boolean. -/
def reportPort1 (m : Option MetricsBlob) : Option Bool :=
  match m with
  | some (.probeReport p _) => some p.port1
  | _ => none

/-- `metricsReport->'ports'->>'p2p'` as an optional boolean. -/
def reportP2p (m : Option MetricsBlob) : Option Bool :=
  match m with
  | some (.probeReport p _) => some p.p2p
  | _ => none

/-- SQL `COALESCE(NULLIF("lastKnownActualVersion",''), NULLIF("actualVersion",''))`.
`lastKnownActualVersion` is nullable, `actualVersion` is read as text. -/
def effectiveVersion (r : SupernodeRow) : Option String :=
  match r.lastKnownActualVersion with
  | some v => if v ≠ "" then some v else (if r.actualVersion ≠ "" then some r.actualVersion else none)
  | none => if r.actualVersion ≠ "" then some r.actualVersion else none

/-- Row predicate of `listSupernodeMetricsFiltered` (the conjunction of the
conditions the Go code appends, in order). -/
def rowMatchesFilter (f : SupernodeMetricsFilter) (r : SupernodeRow) : Bool :=
  (if f.currentState = "running" then decide (r.currentState ≠ "SUPERNODE_STATE_STOPPED")
   else if f.currentState = "stopped" then decide (r.currentState = "SUPERNODE_STATE_STOPPED")
   else true) &&
  (match f.chainState with
   | some cs => decide (r.currentState = cs)
   | none => true) &&
  (if f.status = "available" then
     r.isStatusApiAvailable &&
       decide (reportPort1 r.metricsReport = some true) &&
       decide (reportP2p r.metricsReport = some true)
   else if f.status = "unavailable" then
     !r.isStatusApiAvailable ||
       decide (reportPort1 r.metricsReport = some false) ||
       decide (reportP2p r.metricsReport = some false)
   else true) &&
  (match f.version with
   | some v => decide (effectiveVersion r = some v)
   | none => true) &&
  decide (f.minFailed ≤ r.failedProbeCounter) &&
  (match f.cursorAccount with
   | some a => decide (a < r.supernodeAccount)
   | none => true)

/-- The filter the metrics handler builds for a plain `status=available`
request (no other query parameters). -/
def availableStatusFilter : SupernodeMetricsFilter :=
  { currentState := "any", chainState := none, status := "available",
    version := none, minFailed := 0, cursorAccount := none }

/-- The tri-port availability predicate of the specification: status API
reachable and both TCP ports open in the stored probe report. -/
def triPortAvailable (r : SupernodeRow) : Bool :=
  r.isStatusApiAvailable &&
    decide (reportPort1 r.metricsReport = some true) &&
    decide (reportP2p r.metricsReport = some true)

/-- WHERE clause of `GetAggregatedHardwareStats`: the tri-port rule plus
`currentState != 'SUPERNODE_STATE_STOPPED'`. -/
def hardwareStatsRowSelected (r : SupernodeRow) : Bool :=
  r.isStatusApiAvailable &&
    decide (reportPort1 r.metricsReport = some true) &&
    decide (reportP2p r.metricsReport = some true) &&
    decide (r.currentState ≠ "SUPERNODE_STATE_STOPPED")

structure HardwareStats where
  totalCpuCores : Int
  totalMemoryGb : Rat
  totalStorageBytes : Int
  usedStorageBytes : Int
  availableSupernodes : Nat
deriving Repr, DecidableEq

/-- `GetAggregatedHardwareStats` over a table of rows: `COALESCE(SUM(c),0)`
over the selected rows (SQL SUM skips NULLs, so absent values contribute
0) plus `COUNT(*)`. -/
def getAggregatedHardwareStats (rows : List SupernodeRow) : HardwareStats :=
  let sel := rows.filter hardwareStatsRowSelected
  { totalCpuCores := (sel.map (fun r => (r.cpuCores.getD 0))).sum
    totalMemoryGb := (sel.map (fun r => (r.memoryTotalGb.getD 0))).sum
    totalStorageBytes := (sel.map (fun r => (r.storageTotalBytes.getD 0))).sum
    usedStorageBytes := (sel.map (fun r => (r.storageUsedBytes.getD 0))).sum
    availableSupernodes := sel.length }

/-! ## Action transactions, DTO assembly (handlers/actions.go)

`action_transactions` rows (minus the surrogate `createdAt`, which the
upsert deliberately preserves and no claim consults).  The handler loops of
`ListActions` and `GetAction` share the same per-transaction logic: skip
placeholder rows, convert the rest to DTOs, and assign the flattened
register/finalize/approve fields (later rows of a type overwrite earlier
ones). -/

structure ActionTransaction where
  actionID : Nat
  txType : String
  txHash : String
  height : Int
  blockTime : Int
  gasWanted : Option Int
  gasUsed : Option Int
  actionPrice : Option String
  actionPriceDenom : Option String
  flowPayer : Option String
  flowPayee : Option String
  txFee : Option String
  txFeeDenom : Option String
deriving Repr, DecidableEq

def PlaceholderTxHash : String := "_NO_TX_FOUND_"

/-- Go `isPlaceholderTransaction`. -/
def isPlaceholderTransaction (tx : ActionTransaction) : Bool :=
  tx.txHash = PlaceholderTxHash

structure TransactionDTO where
  txType : String
  txHash : String
  height : Int
  blockTime : Int
  gasWanted : Option Int
  gasUsed : Option Int
  actionPrice : Option String
  actionPriceDenom : Option String
  flowPayer : Option String
  flowPayee : Option String
  txFee : Option String
  txFeeDenom : Option String
deriving Repr, DecidableEq

/-- Go `actionTransactionToDTO`. -/
def actionTransactionToDTO (tx : ActionTransaction) : TransactionDTO :=
  { txType := tx.txType, txHash := tx.txHash, height := tx.height,
    blockTime := tx.blockTime, gasWanted := tx.gasWanted, gasUsed := tx.gasUsed,
    actionPrice := tx.actionPrice, actionPriceDenom := tx.actionPriceDenom,
    flowPayer := tx.flowPayer, flowPayee := tx.flowPayee,
    txFee := tx.txFee, txFeeDenom := tx.txFeeDenom }

/-- Flattened per-type transaction fields of an action item/detail. -/
structure TxFlatFields where
  registerTxID : Option String
  registerTxTime : Option Int
  finalizeTxID : Option String
  finalizeTxTime : Option Int
  approveTxID : Option String
  approveTxTime : Option Int
deriving Repr, DecidableEq

def emptyTxFlatFields : TxFlatFields :=
  ⟨none, none, none, none, none, none⟩

/-- One step of the handler loop: placeholder rows are skipped entirely;
otherwise the DTO is appended (when transactions were requested) and the
flattened field of the row's type is overwritten. -/
def assembleTxStep (includeTransactions : Bool)
    (acc : List TransactionDTO × TxFlatFields) (tx : ActionTransaction) :
    List TransactionDTO × TxFlatFields :=
  if isPlaceholderTransaction tx then acc
  else
    let dtos := if includeTransactions then acc.1 ++ [actionTransactionToDTO tx] else acc.1
    let flat :=
      if tx.txType = "register" then
        { acc.2 with registerTxID := some tx.txHash, registerTxTime := some tx.blockTime }
      else if tx.txType = "finalize" then
        { acc.2 with finalizeTxID := some tx.txHash, finalizeTxTime := some tx.blockTime }
      else if tx.txType = "approve" then
        { acc.2 with approveTxID := some tx.txHash, approveTxTime := some tx.blockTime }
      else acc.2
    (dtos, flat)

/-- The shared transaction-processing loop of `ListActions` (per action) and
`GetAction`: fold over the stored rows in order. -/
def assembleTxViews (includeTransactions : Bool) (txs : List ActionTransaction) :
    List TransactionDTO × TxFlatFields :=
  txs.foldl (assembleTxStep includeTransactions) ([], emptyTxFlatFields)

/-! ## Action-transaction enricher (background/sync.go, db/db.go)

The `action_transactions` table is modelled as a partial map from the
UNIQUE(actionID, txType) key to the row; `UpsertActionTransaction` is the
pointwise update (on conflict every column except the surrogate `createdAt`
is replaced, so re-upserting identical content is the identity on the
model).  The enricher walks batches of 50 unenriched actions
(`GetUnenrichedActions`: `actionID ≥ minID` and no `register` row, ordered
by ascending id), advancing `minID` past each processed action, until a
batch comes back empty or short. -/

def TxStore : Type := Nat → String → Option ActionTransaction

/-- `UpsertActionTransaction` on the keyed model. -/
def upsertActionTransaction (st : TxStore) (r : ActionTransaction) : TxStore :=
  fun i t => if i = r.actionID ∧ t = r.txType then some r else st i t

/-- The fields of `db.Action` the enricher consumes
(from `GetUnenrichedActions`). -/
structure EnrichAction where
  actionID : Nat
  creator : String
  actionType : String
  state : String
  supernodeAccount : String
  createdAt : Int
deriving Repr, DecidableEq

/-- The sentinel row the enricher writes for an action with no transactions
on chain. -/
def placeholderRow (a : EnrichAction) : ActionTransaction :=
  { actionID := a.actionID, txType := "register", txHash := PlaceholderTxHash,
    height := 0, blockTime := a.createdAt,
    gasWanted := none, gasUsed := none, actionPrice := none,
    actionPriceDenom := none, flowPayer := none, flowPayee := none,
    txFee := none, txFeeDenom := none }

/-- The per-action body of `runActionTxEnricher`: fetch the action's
transactions from the chain (`chain` models `Lumera.GetActionTransactions`
over fixed chain data); upsert the placeholder when there are none,
otherwise upsert each returned row. -/
def processAction (chain : EnrichAction → List ActionTransaction)
    (st : TxStore) (a : EnrichAction) : TxStore :=
  let txs := chain a
  if txs.isEmpty then upsertActionTransaction st (placeholderRow a)
  else txs.foldl upsertActionTransaction st

/-- `GetUnenrichedActions` over a table of actions listed in ascending-id
order: ids at least `minID`, no `register` row, first `limit` of them. -/
def getUnenrichedActions (actions : List EnrichAction) (st : TxStore)
    (minID : Nat) (limit : Nat) : List EnrichAction :=
  (actions.filter
    (fun a => decide (minID ≤ a.actionID) && (st a.actionID "register").isNone)).take limit

/-- The batch loop of `runActionTxEnricher` with explicit fuel (the Go loop
terminates because `minID` strictly advances past every processed action;
`runActionTxEnricher` below supplies provably sufficient fuel).  Each batch
is processed left to right, setting `minID := a.actionID + 1` per action. -/
def enrichLoop (chain : EnrichAction → List ActionTransaction)
    (actions : List EnrichAction) : Nat → Nat → TxStore → TxStore
  | 0, _, st => st
  | fuel + 1, minID, st =>
    let batch := getUnenrichedActions actions st minID 50
    if batch.isEmpty then st
    else
      let p := batch.foldl
        (fun (acc : Nat × TxStore) a => (a.actionID + 1, processAction chain acc.2 a))
        (minID, st)
      if batch.length < 50 then p.2 else enrichLoop chain actions fuel p.1 p.2

/-- One full enricher pass starting from the configured floor id. -/
def runActionTxEnricher (chain : EnrichAction → List ActionTransaction)
    (actions : List EnrichAction) (startID : Nat) (st : TxStore) : TxStore :=
  enrichLoop chain actions (actions.length + 1) startID st

/-- The rows an action writes in one processing step: the placeholder when
the chain returns nothing, otherwise the returned rows. -/
def writesOf (chain : EnrichAction → List ActionTransaction) (a : EnrichAction) :
    List ActionTransaction :=
  if (chain a).isEmpty then [placeholderRow a] else chain a

/-- Last row of a write list matching a key (the survivor of the upserts). -/
def lastWriteAt (ws : List ActionTransaction) (i : Nat) (t : String) :
    Option ActionTransaction :=
  ws.reverse.find? (fun r => decide (r.actionID = i) && decide (r.txType = t))

/-! ## Concrete sample values used by witnesses and counterexamples -/

def samplePorts : PortsInfo :=
  { port1 := true, port1Num := 4444, p2p := true, p2pPortNum := 4445 }

/-- A populated supernode row holding probe results (scenario S3 shape). -/
def sampleRow : SupernodeRow :=
  { supernodeAccount := "lumera1sn", validatorAddress := "lumeravaloper1x",
    validatorMoniker := "alice", currentState := "SUPERNODE_STATE_ACTIVE",
    currentStateHeight := "890403", ipAddress := "152.53.138.217:4444",
    p2pPort := 4445, protocolVersion := "1.0.0", actualVersion := "v2.4.10",
    cpuUsagePercent := some 12, cpuCores := some 8, memoryTotalGb := some 64,
    memoryUsedGb := some 32, memoryUsagePercent := some 50,
    storageTotalBytes := some 1000, storageUsedBytes := some 500,
    storageUsagePercent := some 50, hardwareSummary := some "8c/64g",
    peersCount := some 12, uptimeSeconds := some 3600, rank := some 3,
    registeredServices := some "[]", runningTasks := some "[]",
    stateHistory := "[]", evidence := "[]", prevIpAddresses := "[]",
    lastStatusCheck := some 100, isStatusApiAvailable := true,
    metricsReport := some (.probeReport samplePorts "status"),
    lastSuccessfulProbe := some 100, failedProbeCounter := 0,
    lastKnownActualVersion := some "v2.4.10", updatedAt := 100 }

/-- A chain-sync record as `syncSupernodes` builds it: `MetricsReport` is
`toJSONB(sn.Metrics)` of the non-pointer `MetricsAggregate` struct, hence
never SQL NULL. -/
def sampleSync : SupernodeDB :=
  { supernodeAccount := "lumera1sn", validatorAddress := "lumeravaloper1x",
    validatorMoniker := "", currentState := "SUPERNODE_STATE_ACTIVE",
    currentStateHeight := "890403", ipAddress := "152.53.138.217:4444",
    p2pPort := 4445, protocolVersion := "1.0.0",
    stateHistory := "[]", evidence := "[]", prevIpAddresses := "[]",
    metricsReport := some (.chainAggregate "aggregate"),
    registeredServices := none, runningTasks := none }

/-- The same chain-sync record with a NULL metrics blob. -/
def sampleSyncNullMetrics : SupernodeDB :=
  { sampleSync with metricsReport := none }

/-- A successful probe update. -/
def sampleProbeOk : SupernodeProbeUpdate :=
  { supernodeAccount := "lumera1sn", actualVersion := "v2.4.11",
    cpuUsagePercent := some 20, cpuCores := some 8, memoryTotalGb := some 64,
    memoryUsedGb := some 40, memoryUsagePercent := some 62,
    storageTotalBytes := some 1000, storageUsedBytes := some 600,
    storageUsagePercent := some 60, hardwareSummary := some "8c/64g",
    peersCount := some 13, uptimeSeconds := some 4600, rank := some 3,
    lastStatusCheck := some 200, isStatusAPIAvailable := true,
    metricsReport := some (.probeReport samplePorts "status2"),
    probeTimeUTC := 200 }

/-- A failed probe update (status API unreachable). -/
def sampleProbeFail : SupernodeProbeUpdate :=
  { sampleProbeOk with
    isStatusAPIAvailable := false, actualVersion := "",
    metricsReport := some (.probeReport { samplePorts with port1 := false } "") }

/-- An available-looking row whose chain state is STOPPED. -/
def stoppedAvailableRow : SupernodeRow :=
  { sampleRow with currentState := "SUPERNODE_STATE_STOPPED" }

/-- The latest-by-height correctness property for state histories: the
derived pair is the entry at some index `i` whose height parses to the
maximal (positive) parsed value, every parsed height is bounded by it, and
no earlier index attains it. -/
def latestSelectsMax (states : List SupernodeState) : Prop :=
  ∃ i, ∃ hi : i < states.length,
    latestState states =
      ((states.get ⟨i, hi⟩).state, (states.get ⟨i, hi⟩).height) ∧
    parseInt64 (states.get ⟨i, hi⟩).height =
      some (maxHeightScore (states.map (·.height))) ∧
    (∀ e ∈ states, ∀ v, parseInt64 e.height = some v →
      v ≤ maxHeightScore (states.map (·.height))) ∧
    (∀ j, ∀ hj : j < states.length, j < i →
      parseInt64 (states.get ⟨j, hj⟩).height ≠
        some (maxHeightScore (states.map (·.height))))

/-- The latest-by-height correctness property for IP histories. -/
def latestIPSelectsMax (addrs : List PrevIPAddress) : Prop :=
  ∃ i, ∃ hi : i < addrs.length,
    latestIPAddress addrs = (addrs.get ⟨i, hi⟩).address ∧
    parseInt64 (addrs.get ⟨i, hi⟩).height =
      some (maxHeightScore (addrs.map (·.height))) ∧
    (∀ e ∈ addrs, ∀ v, parseInt64 e.height = some v →
      v ≤ maxHeightScore (addrs.map (·.height))) ∧
    (∀ j, ∀ hj : j < addrs.length, j < i →
      parseInt64 (addrs.get ⟨j, hj⟩).height ≠
        some (maxHeightScore (addrs.map (·.height))))

/-- The S1 state history. -/
def s1History : List SupernodeState :=
  [⟨"ACTIVE", "412540"⟩, ⟨"DISABLED", "517710"⟩, ⟨"ACTIVE", "517799"⟩,
   ⟨"STOPPED", "890394"⟩, ⟨"ACTIVE", "890403"⟩]

/-! # Theorems -/

/-- Helper: a run of failed probe writes never decreases the
failed-probe counter. -/
theorem failedProbeCounter_mono (us : List (SupernodeProbeUpdate × Int))
    (hall : ∀ p ∈ us, p.1.isStatusAPIAvailable = false) :
    ∀ row : SupernodeRow,
      row.failedProbeCounter ≤
        (us.foldl (fun r p => updateSupernodeProbeData r p.1 p.2) row).failedProbeCounter := by
  induction us with
  | nil => intro row; exact le_refl _
  | cons p rest ih =>
    intro row
    have hp : p.1.isStatusAPIAvailable = false := hall p (List.mem_cons_self _ _)
    have hrest : ∀ q ∈ rest, q.1.isStatusAPIAvailable = false := by
      intro q hq; exact hall q (List.mem_cons_of_mem _ hq)
    have step : (updateSupernodeProbeData row p.1 p.2).failedProbeCounter =
        row.failedProbeCounter + 1 := by
      simp [updateSupernodeProbeData, hp]
    calc row.failedProbeCounter
        ≤ (updateSupernodeProbeData row p.1 p.2).failedProbeCounter := by
          rw [step]; exact Nat.le_succ _
      _ ≤ _ := ih hrest (updateSupernodeProbeData row p.1 p.2)

/-- C3: probe-write branching.  On a successful probe the counter is zeroed,
`lastSuccessfulProbe` is stamped with the probe time and
`lastKnownActualVersion` is replaced only by a non-empty version; on a
failed probe the counter is incremented by exactly one and
`lastSuccessfulProbe` / `lastKnownActualVersion` are untouched; both
branches stamp `lastStatusCheck` and fold `actualVersion` through the
non-empty filter; consequently the counter is non-decreasing across any run
of failed probes. -/
theorem updateSupernodeProbeData_branching (row : SupernodeRow)
    (u : SupernodeProbeUpdate) (now : Int) :
    (u.isStatusAPIAvailable = true →
      (updateSupernodeProbeData row u now).failedProbeCounter = 0 ∧
      (updateSupernodeProbeData row u now).lastSuccessfulProbe = some u.probeTimeUTC ∧
      (updateSupernodeProbeData row u now).lastKnownActualVersion =
        (if u.actualVersion ≠ "" then some u.actualVersion else row.lastKnownActualVersion)) ∧
    (u.isStatusAPIAvailable = false →
      (updateSupernodeProbeData row u now).failedProbeCounter = row.failedProbeCounter + 1 ∧
      (updateSupernodeProbeData row u now).lastSuccessfulProbe = row.lastSuccessfulProbe ∧
      (updateSupernodeProbeData row u now).lastKnownActualVersion = row.lastKnownActualVersion) ∧
    (updateSupernodeProbeData row u now).lastStatusCheck = u.lastStatusCheck ∧
    (updateSupernodeProbeData row u now).actualVersion =
      (if u.actualVersion ≠ "" then u.actualVersion else row.actualVersion) ∧
    (∀ us : List (SupernodeProbeUpdate × Int),
      (∀ p ∈ us, p.1.isStatusAPIAvailable = false) →
      row.failedProbeCounter ≤
        (us.foldl (fun r p => updateSupernodeProbeData r p.1 p.2) row).failedProbeCounter) := by
  refine ⟨?_, ?_, ?_, ?_, ?_⟩
  · intro h; simp [updateSupernodeProbeData, h, coalesceNullifOpt]
  · intro h; simp [updateSupernodeProbeData, h]
  · cases h : u.isStatusAPIAvailable <;> simp [updateSupernodeProbeData, h]
  · cases h : u.isStatusAPIAvailable <;> simp [updateSupernodeProbeData, h, coalesceNullif]
  · intro us hall; exact failedProbeCounter_mono us hall row

/-- Witness for C3 at concrete inputs. -/
theorem updateSupernodeProbeData_branching_witness :
    (updateSupernodeProbeData sampleRow sampleProbeOk 200).failedProbeCounter = 0 ∧
    (updateSupernodeProbeData sampleRow sampleProbeFail 300).failedProbeCounter =
      sampleRow.failedProbeCounter + 1 := by
  have h1 := (updateSupernodeProbeData_branching sampleRow sampleProbeOk 200).1 (by decide)
  have h2 := ((updateSupernodeProbeData_branching sampleRow sampleProbeFail 300).2.1) (by decide)
  exact ⟨h1.1, h2.1⟩

/-- C1 counterexample: a chain-sync write through `UpsertSupernode` does
mutate the probe-owned `metricsReport` column — the conflict clause is
`COALESCE(EXCLUDED."metricsReport", old)` and `syncSupernodes` always
passes the non-null JSONB encoding of the chain's metrics aggregate, so an
existing probe report is overwritten. -/
theorem upsertSupernode_mutates_metricsReport :
    sampleRow.metricsReport = some (.probeReport samplePorts "status") ∧
    sampleSync.metricsReport = some (.chainAggregate "aggregate") ∧
    (upsertSupernodeConflict sampleRow sampleSync 200).metricsReport =
      some (.chainAggregate "aggregate") ∧
    (upsertSupernodeConflict sampleRow sampleSync 200).metricsReport ≠
      sampleRow.metricsReport := by
  refine ⟨rfl, rfl, rfl, ?_⟩
  simp [upsertSupernodeConflict, sampleRow, sampleSync, Option.orElse]

/-- C1 as amended: a chain-sync write leaves every probe-owned column other
than `metricsReport` unchanged, and preserves `metricsReport` exactly when
the incoming blob is null (otherwise it overwrites it); a probe write
leaves every chain-owned column unchanged. -/
theorem ownership_isolation_amended (row : SupernodeRow) (sn : SupernodeDB)
    (u : SupernodeProbeUpdate) (now now2 : Int) :
    (upsertSupernodeConflict row sn now).actualVersion = row.actualVersion ∧
    (upsertSupernodeConflict row sn now).cpuUsagePercent = row.cpuUsagePercent ∧
    (upsertSupernodeConflict row sn now).cpuCores = row.cpuCores ∧
    (upsertSupernodeConflict row sn now).memoryTotalGb = row.memoryTotalGb ∧
    (upsertSupernodeConflict row sn now).memoryUsedGb = row.memoryUsedGb ∧
    (upsertSupernodeConflict row sn now).memoryUsagePercent = row.memoryUsagePercent ∧
    (upsertSupernodeConflict row sn now).storageTotalBytes = row.storageTotalBytes ∧
    (upsertSupernodeConflict row sn now).storageUsedBytes = row.storageUsedBytes ∧
    (upsertSupernodeConflict row sn now).storageUsagePercent = row.storageUsagePercent ∧
    (upsertSupernodeConflict row sn now).hardwareSummary = row.hardwareSummary ∧
    (upsertSupernodeConflict row sn now).peersCount = row.peersCount ∧
    (upsertSupernodeConflict row sn now).uptimeSeconds = row.uptimeSeconds ∧
    (upsertSupernodeConflict row sn now).rank = row.rank ∧
    (upsertSupernodeConflict row sn now).lastStatusCheck = row.lastStatusCheck ∧
    (upsertSupernodeConflict row sn now).lastSuccessfulProbe = row.lastSuccessfulProbe ∧
    (upsertSupernodeConflict row sn now).failedProbeCounter = row.failedProbeCounter ∧
    (upsertSupernodeConflict row sn now).lastKnownActualVersion = row.lastKnownActualVersion ∧
    (upsertSupernodeConflict row sn now).isStatusApiAvailable = row.isStatusApiAvailable ∧
    (sn.metricsReport = none →
      (upsertSupernodeConflict row sn now).metricsReport = row.metricsReport) ∧
    (updateSupernodeProbeData row u now2).validatorAddress = row.validatorAddress ∧
    (updateSupernodeProbeData row u now2).validatorMoniker = row.validatorMoniker ∧
    (updateSupernodeProbeData row u now2).currentState = row.currentState ∧
    (updateSupernodeProbeData row u now2).currentStateHeight = row.currentStateHeight ∧
    (updateSupernodeProbeData row u now2).ipAddress = row.ipAddress ∧
    (updateSupernodeProbeData row u now2).p2pPort = row.p2pPort ∧
    (updateSupernodeProbeData row u now2).protocolVersion = row.protocolVersion ∧
    (updateSupernodeProbeData row u now2).prevIpAddresses = row.prevIpAddresses ∧
    (updateSupernodeProbeData row u now2).stateHistory = row.stateHistory ∧
    (updateSupernodeProbeData row u now2).evidence = row.evidence := by
  cases h : u.isStatusAPIAvailable <;>
    simp [upsertSupernodeConflict, updateSupernodeProbeData, h] <;>
    (intro hm; simp [hm, Option.orElse])

/-- Witness for C1 (amended) at concrete inputs. -/
theorem ownership_isolation_amended_witness :
    (upsertSupernodeConflict sampleRow sampleSyncNullMetrics 200).metricsReport =
      sampleRow.metricsReport := by
  have h := ownership_isolation_amended sampleRow sampleSyncNullMetrics sampleProbeOk 200 300
  exact h.2.2.2.2.2.2.2.2.2.2.2.2.2.2.2.2.2.2.1 rfl

/-- C6 counterexample: the hardware-stats aggregate does not select by the
tri-port conjunction alone — a row passing all three port checks whose
chain state is `SUPERNODE_STATE_STOPPED` is returned by the
`status=available` filter yet excluded from the aggregate. -/
theorem hardwareStats_not_triport_only :
    rowMatchesFilter availableStatusFilter stoppedAvailableRow = true ∧
    triPortAvailable stoppedAvailableRow = true ∧
    hardwareStatsRowSelected stoppedAvailableRow = false ∧
    (getAggregatedHardwareStats [stoppedAvailableRow]).availableSupernodes = 0 := by
  refine ⟨?_, ?_, ?_, ?_⟩ <;> decide

/-- C6 as amended: the `status=available` filter selects a row exactly when
the stored probe data passes the tri-port conjunction (status API available
and both ports open), and the hardware-stats aggregate selects by the
tri-port conjunction plus `currentState ≠ 'SUPERNODE_STATE_STOPPED'`,
summing CPU/memory/storage over exactly those rows. -/
theorem available_filter_is_triport (r : SupernodeRow) (rows : List SupernodeRow) :
    rowMatchesFilter availableStatusFilter r = triPortAvailable r ∧
    hardwareStatsRowSelected r =
      (triPortAvailable r && decide (r.currentState ≠ "SUPERNODE_STATE_STOPPED")) ∧
    getAggregatedHardwareStats rows =
      { totalCpuCores := ((rows.filter (fun x => triPortAvailable x &&
            decide (x.currentState ≠ "SUPERNODE_STATE_STOPPED"))).map
            (fun x => x.cpuCores.getD 0)).sum
        totalMemoryGb := ((rows.filter (fun x => triPortAvailable x &&
            decide (x.currentState ≠ "SUPERNODE_STATE_STOPPED"))).map
            (fun x => x.memoryTotalGb.getD 0)).sum
        totalStorageBytes := ((rows.filter (fun x => triPortAvailable x &&
            decide (x.currentState ≠ "SUPERNODE_STATE_STOPPED"))).map
            (fun x => x.storageTotalBytes.getD 0)).sum
        usedStorageBytes := ((rows.filter (fun x => triPortAvailable x &&
            decide (x.currentState ≠ "SUPERNODE_STATE_STOPPED"))).map
            (fun x => x.storageUsedBytes.getD 0)).sum
        availableSupernodes := (rows.filter (fun x => triPortAvailable x &&
            decide (x.currentState ≠ "SUPERNODE_STATE_STOPPED"))).length } := by
  have hpt : ∀ x : SupernodeRow, hardwareStatsRowSelected x =
      (triPortAvailable x && decide (x.currentState ≠ "SUPERNODE_STATE_STOPPED")) := by
    intro x
    simp [hardwareStatsRowSelected, triPortAvailable, Bool.and_assoc]
  refine ⟨?_, hpt r, ?_⟩
  · simp [rowMatchesFilter, availableStatusFilter, triPortAvailable]
  · have : rows.filter hardwareStatsRowSelected =
        rows.filter (fun x => triPortAvailable x &&
          decide (x.currentState ≠ "SUPERNODE_STATE_STOPPED")) := by
      apply List.filter_congr
      intro x _
      exact hpt x
    simp [getAggregatedHardwareStats, this]

/-- Helper: the digit scan is the digit span of the character list. -/
theorem spanDigits_eq_span (cs : List Char) :
    spanDigits cs = (cs.takeWhile isDigitCh, cs.dropWhile isDigitCh) := by
  induction cs with
  | nil => rfl
  | cons c rest ih =>
    by_cases h : isDigitCh c = true
    · simp [spanDigits, h, List.takeWhile_cons, List.dropWhile_cons, ih]
    · simp at h
      simp [spanDigits, h, List.takeWhile_cons, List.dropWhile_cons]

/-- C8: coin-amount decoding accepts both wire forms, splits the bare-string
form at the first non-digit, and round-trips: re-concatenating the parsed
amount and denom restores the input, so re-parsing yields the identical
pair.  In particular `"10090ulume"` and `{"denom":"ulume","amount":"10090"}`
decode to the same `(denom, amount) = ("ulume", "10090")`. -/
theorem priceField_decoding (d a s : String) :
    unmarshalPriceField (.obj d a) = (d, a) ∧
    unmarshalPriceField (.str s) =
      (String.mk (s.data.dropWhile isDigitCh), String.mk (s.data.takeWhile isDigitCh)) ∧
    (parseCoinString s).1.data = s.data.takeWhile isDigitCh ∧
    (parseCoinString s).2.data = s.data.dropWhile isDigitCh ∧
    (parseCoinString s).1 ++ (parseCoinString s).2 = s ∧
    parseCoinString ((parseCoinString s).1 ++ (parseCoinString s).2) = parseCoinString s ∧
    parseCoinString "10090ulume" = ("10090", "ulume") ∧
    unmarshalPriceField (.str "10090ulume") = ("ulume", "10090") ∧
    unmarshalPriceField (.obj "ulume" "10090") = ("ulume", "10090") := by
  have hsplit : (parseCoinString s).1.data = s.data.takeWhile isDigitCh ∧
      (parseCoinString s).2.data = s.data.dropWhile isDigitCh := by
    simp [parseCoinString, spanDigits_eq_span]
  have happ : (parseCoinString s).1 ++ (parseCoinString s).2 = s := by
    apply String.ext
    simp [String.data_append, hsplit.1, hsplit.2]
  refine ⟨rfl, ?_, hsplit.1, hsplit.2, happ, by rw [happ], by decide, by decide, rfl⟩
  simp [unmarshalPriceField, parseCoinString, spanDigits_eq_span]

/-- Helper: with transactions requested, the DTO list produced by the
handler loop is exactly the placeholder-free rows, converted, appended to
the accumulator. -/
theorem assemble_dtos_true (txs : List ActionTransaction) :
    ∀ acc : List TransactionDTO × TxFlatFields,
      (txs.foldl (assembleTxStep true) acc).1 =
        acc.1 ++ (txs.filter (fun tx => !isPlaceholderTransaction tx)).map
          actionTransactionToDTO := by
  induction txs with
  | nil => intro acc; simp
  | cons tx rest ih =>
    intro acc
    by_cases h : isPlaceholderTransaction tx = true
    · simp [List.foldl_cons, assembleTxStep, h, ih]
    · simp at h
      simp [List.foldl_cons, assembleTxStep, h, ih]

/-- Helper: without transactions requested, the DTO list stays empty. -/
theorem assemble_dtos_false (txs : List ActionTransaction) :
    ∀ acc : List TransactionDTO × TxFlatFields,
      (txs.foldl (assembleTxStep false) acc).1 = acc.1 := by
  induction txs with
  | nil => intro acc; rfl
  | cons tx rest ih =>
    intro acc
    by_cases h : isPlaceholderTransaction tx = true
    · simp [List.foldl_cons, assembleTxStep, h, ih]
    · simp at h
      simp [List.foldl_cons, assembleTxStep, h, ih]

/-- Helper: the handler loop never writes the sentinel hash into a
flattened transaction-id field. -/
theorem assemble_flat_no_sentinel (flag : Bool) (txs : List ActionTransaction) :
    ∀ acc : List TransactionDTO × TxFlatFields,
      acc.2.registerTxID ≠ some PlaceholderTxHash →
      acc.2.finalizeTxID ≠ some PlaceholderTxHash →
      acc.2.approveTxID ≠ some PlaceholderTxHash →
      (txs.foldl (assembleTxStep flag) acc).2.registerTxID ≠ some PlaceholderTxHash ∧
      (txs.foldl (assembleTxStep flag) acc).2.finalizeTxID ≠ some PlaceholderTxHash ∧
      (txs.foldl (assembleTxStep flag) acc).2.approveTxID ≠ some PlaceholderTxHash := by
  induction txs with
  | nil => intro acc h1 h2 h3; exact ⟨h1, h2, h3⟩
  | cons tx rest ih =>
    intro acc h1 h2 h3
    by_cases h : isPlaceholderTransaction tx = true
    · simpa [List.foldl_cons, assembleTxStep, h] using ih acc h1 h2 h3
    · have hneq : tx.txHash ≠ PlaceholderTxHash := by
        simpa [isPlaceholderTransaction] using h
      rw [List.foldl_cons]
      apply ih
      · by_cases hr : tx.txType = "register"
        · simp [assembleTxStep, h, hr]; exact fun hh => hneq hh
        · by_cases hf : tx.txType = "finalize"
          · simp [assembleTxStep, h, hr, hf]; exact h1
          · by_cases ha : tx.txType = "approve"
            · simp [assembleTxStep, h, hr, hf, ha]; exact h1
            · simp [assembleTxStep, h, hr, hf, ha]; exact h1
      · by_cases hr : tx.txType = "register"
        · simp [assembleTxStep, h, hr]; exact h2
        · by_cases hf : tx.txType = "finalize"
          · simp [assembleTxStep, h, hr, hf]; exact fun hh => hneq hh
          · by_cases ha : tx.txType = "approve"
            · simp [assembleTxStep, h, hr, hf, ha]; exact h2
            · simp [assembleTxStep, h, hr, hf, ha]; exact h2
      · by_cases hr : tx.txType = "register"
        · simp [assembleTxStep, h, hr]; exact h3
        · by_cases hf : tx.txType = "finalize"
          · simp [assembleTxStep, h, hr, hf]; exact h3
          · by_cases ha : tx.txType = "approve"
            · simp [assembleTxStep, h, hr, hf, ha]; exact fun hh => hneq hh
            · simp [assembleTxStep, h, hr, hf, ha]; exact h3

/-- C7: placeholder invisibility.  For every stored transaction list, the
handler loop (shared by the action list and detail endpoints) skips every
row whose hash is the sentinel before assembling output: the emitted DTO
list is exactly the non-sentinel rows (empty when transactions are not
requested), no emitted DTO carries the sentinel hash, and none of the six
flattened register/finalize/approve fields carries it. -/
theorem placeholder_invisibility (flag : Bool) (txs : List ActionTransaction) :
    (assembleTxViews true txs).1 =
      (txs.filter (fun tx => !isPlaceholderTransaction tx)).map actionTransactionToDTO ∧
    (assembleTxViews false txs).1 = [] ∧
    (∀ dto ∈ (assembleTxViews flag txs).1, dto.txHash ≠ PlaceholderTxHash) ∧
    (assembleTxViews flag txs).2.registerTxID ≠ some PlaceholderTxHash ∧
    (assembleTxViews flag txs).2.finalizeTxID ≠ some PlaceholderTxHash ∧
    (assembleTxViews flag txs).2.approveTxID ≠ some PlaceholderTxHash := by
  have hflat := assemble_flat_no_sentinel flag txs ([], emptyTxFlatFields)
    (by simp [emptyTxFlatFields]) (by simp [emptyTxFlatFields]) (by simp [emptyTxFlatFields])
  refine ⟨?_, ?_, ?_, hflat.1, hflat.2.1, hflat.2.2⟩
  · simpa using assemble_dtos_true txs ([], emptyTxFlatFields)
  · simpa using assemble_dtos_false txs ([], emptyTxFlatFields)
  · intro dto hdto
    cases flag with
    | false =>
      have : (assembleTxViews false txs).1 = [] := by
        simpa using assemble_dtos_false txs ([], emptyTxFlatFields)
      rw [this] at hdto
      simp at hdto
    | true =>
      have hch : (assembleTxViews true txs).1 =
          (txs.filter (fun tx => !isPlaceholderTransaction tx)).map actionTransactionToDTO := by
        simpa using assemble_dtos_true txs ([], emptyTxFlatFields)
      rw [hch] at hdto
      obtain ⟨tx, htx, rfl⟩ := List.mem_map.mp hdto
      have : isPlaceholderTransaction tx = false := by
        have := List.of_mem_filter htx
        simpa using this
      simpa [actionTransactionToDTO, isPlaceholderTransaction] using this

/-- Witness for C7 at a concrete input: a sentinel register row next to a
real finalize row. -/
theorem placeholder_invisibility_witness :
    (assembleTxViews true
        [placeholderRow ⟨7, "c", "cascade", "DONE", "sn", 5⟩,
         { actionID := 7, txType := "finalize", txHash := "ABCD", height := 12,
           blockTime := 13, gasWanted := none, gasUsed := none,
           actionPrice := none, actionPriceDenom := none, flowPayer := none,
           flowPayee := none, txFee := none, txFeeDenom := none }]).1 =
      [{ txType := "finalize", txHash := "ABCD", height := 12, blockTime := 13,
         gasWanted := none, gasUsed := none, actionPrice := none,
         actionPriceDenom := none, flowPayer := none, flowPayee := none,
         txFee := none, txFeeDenom := none }] := by
  rw [(placeholder_invisibility true _).1]
  decide

/-- Helper: the Go return-on-match loop is `List.find?`. -/
theorem findTransfer_eq_find (p : TransferFlow → Bool) (l : List TransferFlow) :
    findTransfer p l = l.find? p := by
  induction l with
  | nil => rfl
  | cons tf rest ih =>
    by_cases h : p tf = true
    · simp [findTransfer, List.find?, h]
    · simp at h
      simp [findTransfer, List.find?, h, ih]

/-- Helper: a first-match Go pattern as an `orElse`. -/
theorem optionMatchOrElse (x y : Option TransferFlow) :
    (match x with | some tf => some tf | none => y) = (x <|> y) := by
  cases x <;> rfl

/-- C4: settlement-transfer selection.  With the transfers collected from
the transaction (top-level events then per-log events), the `register`
cascade returns the first transfer whose recipient is the settlement-module
address (when known), else the first whose sender is the action's creator,
else the first transfer; the `finalize`/`approve` cascade returns the first
transfer matching, in order of preference, sender=module ∧ recipient=tx
signer, sender=module ∧ recipient=assigned supernode, sender=module,
recipient=tx signer, recipient=assigned supernode, known sender ≠ creator,
else the first transfer (a preference naming an unknown party is skipped);
with no transfer events the result is `none`.  Scenarios S4 and S5 are
checked concretely. -/
theorem extractTransferFlow_cascade (creator sn ty : String)
    (events : List Event) (logs : List ABCILog) (moduleAddr txSigner : String) :
    (extractTransferFlow creator sn "register" events logs moduleAddr txSigner =
      specRegisterSelect creator moduleAddr (collectTransfers events logs)) ∧
    (extractTransferFlow creator sn "finalize" events logs moduleAddr txSigner =
      specSettleSelect creator sn moduleAddr txSigner (collectTransfers events logs)) ∧
    (extractTransferFlow creator sn "approve" events logs moduleAddr txSigner =
      specSettleSelect creator sn moduleAddr txSigner (collectTransfers events logs)) ∧
    (collectTransfers events logs = [] →
      extractTransferFlow creator sn ty events logs moduleAddr txSigner = none) ∧
    extractTransferFlow "creator1" "snacct" "register"
        [⟨"transfer", [⟨"sender", "other"⟩, ⟨"recipient", "other2"⟩, ⟨"amount", "5ulume"⟩]⟩,
         ⟨"transfer", [⟨"sender", "creator1"⟩, ⟨"recipient", "module1"⟩,
                       ⟨"amount", "10090ulume"⟩]⟩]
        [] "module1" "creator1" =
      some ⟨some "10090", some "ulume", some "creator1", some "module1"⟩ ∧
    extractTransferFlow "creator1" "snacct" "finalize"
        [⟨"transfer", [⟨"sender", "module1"⟩, ⟨"recipient", "snacct"⟩,
                       ⟨"amount", "9000ulume"⟩]⟩]
        [] "module1" "snacct" =
      some ⟨some "9000", some "ulume", some "module1", some "snacct"⟩ := by
  have hreg : extractTransferFlow creator sn "register" events logs moduleAddr txSigner =
      specRegisterSelect creator moduleAddr (collectTransfers events logs) := by
    by_cases hT : (collectTransfers events logs).isEmpty
    · have hnil : collectTransfers events logs = [] := by
        simpa [List.isEmpty_iff] using hT
      simp [extractTransferFlow, specRegisterSelect, hnil]
    · simp only [extractTransferFlow, hT, Bool.false_eq_true, if_false, if_true,
        findTransfer_eq_find, optionMatchOrElse, specRegisterSelect, reduceIte]
  have hsettle : ∀ t, (t = "finalize" ∨ t = "approve") →
      extractTransferFlow creator sn t events logs moduleAddr txSigner =
        specSettleSelect creator sn moduleAddr txSigner (collectTransfers events logs) := by
    intro t ht
    by_cases hT : (collectTransfers events logs).isEmpty
    · have hnil : collectTransfers events logs = [] := by
        simpa [List.isEmpty_iff] using hT
      cases ht with
      | inl h => simp [extractTransferFlow, specSettleSelect, hnil, h]
      | inr h => simp [extractTransferFlow, specSettleSelect, hnil, h]
    · have hne : ¬(t = "register") := by
        cases ht with
        | inl h => simp [h]
        | inr h => simp [h]
      simp only [extractTransferFlow, hT, Bool.false_eq_true, if_false, hne, ht,
        if_true, findTransfer_eq_find, optionMatchOrElse, specSettleSelect, reduceIte]
  refine ⟨hreg, hsettle "finalize" (Or.inl rfl), hsettle "approve" (Or.inr rfl), ?_,
    by decide, by decide⟩
  intro hnil
  simp [extractTransferFlow, hnil]

/-- Helper: a height score is never negative. -/
theorem heightScore_nonneg (h : String) : 0 ≤ heightScore h := by
  unfold heightScore
  cases parseInt64 h with
  | none => exact le_refl 0
  | some v =>
    by_cases hv : 0 < v
    · simp [hv]; omega
    · simp [hv]

/-- Helper: the running maximum of height scores is never negative. -/
theorem maxHeightScore_nonneg (hs : List String) : 0 ≤ maxHeightScore hs := by
  induction hs with
  | nil => exact le_refl 0
  | cons h t ih => exact le_trans ih (le_max_right _ _)

/-- Helper: every member's score is bounded by the maximum. -/
theorem heightScore_le_max (hs : List String) (h : String) (hmem : h ∈ hs) :
    heightScore h ≤ maxHeightScore hs := by
  induction hs with
  | nil => cases hmem
  | cons x t ih =>
    rcases List.mem_cons.mp hmem with rfl | hmem2
    · exact le_max_left _ _
    · exact le_trans (ih hmem2) (le_max_right _ _)

/-- Helper: a positive score pins the parse result. -/
theorem heightScore_pos_parse (h : String) (hpos : 0 < heightScore h) :
    parseInt64 h = some (heightScore h) := by
  cases hp : parseInt64 h with
  | none => exfalso; simp [heightScore, hp] at hpos
  | some v =>
    have hs : heightScore h = if 0 < v then v else 0 := by simp [heightScore, hp]
    by_cases h0 : 0 < v
    · rw [hs, if_pos h0]
    · rw [hs, if_neg h0] at hpos; omega

/-- Helper: characterization of the Go index-selection scan.  With a
non-negative running best height, the scan returns the offset of the first
entry attaining the maximum score when that maximum beats the running best,
and the carried best index otherwise. -/
theorem bestHeightScan_aux (hs : List String) :
    ∀ (i best : Nat) (bh : Int), 0 ≤ bh →
      bestHeightScan hs i best bh =
        if bh < maxHeightScore hs then
          i + hs.findIdx (fun h => decide (heightScore h = maxHeightScore hs))
        else best := by
  induction hs with
  | nil =>
    intro i best bh hbh
    simp only [bestHeightScan, maxHeightScore, List.foldr_nil]
    rw [if_neg (by omega)]
  | cons h t ih =>
    intro i best bh hbh
    have hMt : 0 ≤ maxHeightScore t := maxHeightScore_nonneg t
    have hM : maxHeightScore (h :: t) = max (heightScore h) (maxHeightScore t) := rfl
    cases hp : parseInt64 h with
    | none =>
      have hsc : heightScore h = 0 := by simp [heightScore, hp]
      have hstep : bestHeightScan (h :: t) i best bh = bestHeightScan t (i + 1) best bh := by
        simp [bestHeightScan, hp]
      rw [hstep, ih (i + 1) best bh hbh, hM, hsc]
      have hmax : max (0 : Int) (maxHeightScore t) = maxHeightScore t := max_eq_right hMt
      rw [hmax]
      by_cases hlt : bh < maxHeightScore t
      · have hMpos : (0 : Int) < maxHeightScore t := lt_of_le_of_lt hbh hlt
        rw [if_pos hlt, if_pos hlt, List.findIdx_cons]
        have : (decide (heightScore h = maxHeightScore t)) = false := by
          simp [hsc]; omega
        rw [this]
        simp; omega
      · rw [if_neg hlt, if_neg hlt]
    | some v =>
      by_cases hv : bh < v
      · have hvpos : 0 < v := lt_of_le_of_lt hbh hv
        have hsc : heightScore h = v := by simp [heightScore, hp, hvpos]
        have hstep : bestHeightScan (h :: t) i best bh = bestHeightScan t (i + 1) i v := by
          simp [bestHeightScan, hp, hv]
        rw [hstep, ih (i + 1) i v (le_of_lt hvpos), hM, hsc]
        by_cases hvt : v < maxHeightScore t
        · have hmax : max v (maxHeightScore t) = maxHeightScore t :=
            max_eq_right (le_of_lt hvt)
          rw [hmax, if_pos hvt, if_pos (lt_trans hv hvt), List.findIdx_cons]
          have : (decide (heightScore h = maxHeightScore t)) = false := by
            simp [hsc]; omega
          rw [this]
          simp; omega
        · have hmax : max v (maxHeightScore t) = v := max_eq_left (not_lt.mp hvt)
          rw [hmax, if_neg hvt, if_pos hv, List.findIdx_cons]
          have : (decide (heightScore h = v)) = true := by simp [hsc]
          rw [this]
          simp
      · have hsc : heightScore h ≤ bh := by
          unfold heightScore
          rw [hp]
          by_cases h0 : 0 < v
          · simp [h0]; omega
          · simp [h0]; exact hbh
        have hstep : bestHeightScan (h :: t) i best bh = bestHeightScan t (i + 1) best bh := by
          simp [bestHeightScan, hp, hv]
        rw [hstep, ih (i + 1) best bh hbh, hM]
        by_cases hlt : bh < maxHeightScore t
        · have hmax : max (heightScore h) (maxHeightScore t) = maxHeightScore t :=
            max_eq_right (le_of_lt (lt_of_le_of_lt hsc hlt))
          rw [hmax, if_pos hlt, if_pos hlt, List.findIdx_cons]
          have : (decide (heightScore h = maxHeightScore t)) = false := by
            simp; omega
          rw [this]
          simp; omega
        · have hcond : ¬(bh < max (heightScore h) (maxHeightScore t)) :=
            not_lt.mpr (max_le hsc (not_lt.mp hlt))
          rw [if_neg hlt, if_neg hcond]

/-- Helper: the scan from the initial `(0, 0, 0)` state. -/
theorem bestHeightScan_spec (hs : List String) :
    bestHeightScan hs 0 0 0 =
      if 0 < maxHeightScore hs then
        hs.findIdx (fun h => decide (heightScore h = maxHeightScore hs))
      else 0 := by
  rw [bestHeightScan_aux hs 0 0 0 (le_refl 0)]
  by_cases h : (0 : Int) < maxHeightScore hs
  · rw [if_pos h, if_pos h]; omega
  · rw [if_neg h, if_neg h]

/-- Helper: a positive maximum score is attained by some member. -/
theorem maxHeightScore_attained (hs : List String)
    (hpos : 0 < maxHeightScore hs) :
    ∃ h ∈ hs, heightScore h = maxHeightScore hs := by
  induction hs with
  | nil => simp [maxHeightScore] at hpos
  | cons h t ih =>
    have hM : maxHeightScore (h :: t) = max (heightScore h) (maxHeightScore t) := rfl
    rcases le_total (heightScore h) (maxHeightScore t) with hle | hle
    · have hMt : maxHeightScore (h :: t) = maxHeightScore t := by
        rw [hM]; exact max_eq_right hle
      rw [hMt] at hpos ⊢
      obtain ⟨x, hx, hxe⟩ := ih hpos
      exact ⟨x, List.mem_cons_of_mem _ hx, hxe⟩
    · have hMh : maxHeightScore (h :: t) = heightScore h := by
        rw [hM]; exact max_eq_left hle
      rw [hMh]
      exact ⟨h, List.mem_cons_self _ _, rfl⟩

/-- Helper: a uniform score bound bounds the maximum. -/
theorem maxHeightScore_le (hs : List String) (c : Int) (hc : 0 ≤ c)
    (hall : ∀ h ∈ hs, heightScore h ≤ c) : maxHeightScore hs ≤ c := by
  induction hs with
  | nil => exact hc
  | cons h t ih =>
    have hM : maxHeightScore (h :: t) = max (heightScore h) (maxHeightScore t) := rfl
    rw [hM]
    apply max_le (hall h (List.mem_cons_self _ _))
    exact ih (fun x hx => hall x (List.mem_cons_of_mem _ hx))

/-- Helper: the score of a successfully parsed height. -/
theorem heightScore_of_parse (h : String) (v : Int)
    (hp : parseInt64 h = some v) :
    heightScore h = if 0 < v then v else 0 := by
  simp [heightScore, hp]

/-- Helper: latestState picks a maximal-height entry whenever some height
parses to a positive value. -/
theorem latestSelectsMax_of_pos (states : List SupernodeState)
    (hM : 0 < maxHeightScore (states.map (·.height))) :
    latestSelectsMax states := by
  have hne : states ≠ [] := by
    intro h
    rw [h] at hM
    simp [maxHeightScore] at hM
  obtain ⟨s0, rest, rfl⟩ := List.exists_cons_of_ne_nil hne
  set M := maxHeightScore ((s0 :: rest).map (·.height)) with hMdef
  set p : String → Bool := fun h => decide (heightScore h = M) with hpdef
  have hex : ∃ h ∈ (s0 :: rest).map (·.height), p h = true := by
    obtain ⟨x, hx, hxe⟩ := maxHeightScore_attained _ hM
    refine ⟨x, hx, ?_⟩
    simp only [hpdef, decide_eq_true_eq]
    exact hxe
  have hilt : ((s0 :: rest).map (·.height)).findIdx p <
      ((s0 :: rest).map (·.height)).length := List.findIdx_lt_length_of_exists hex
  have hlen : ((s0 :: rest).map (·.height)).length = (s0 :: rest).length :=
    List.length_map _ _
  have hi : ((s0 :: rest).map (·.height)).findIdx p < (s0 :: rest).length := by
    omega
  have hidx : bestHeightScan ((s0 :: rest).map (·.height)) 0 0 0 =
      ((s0 :: rest).map (·.height)).findIdx p := by
    rw [bestHeightScan_spec, if_pos hM]
  have hscore : heightScore (((s0 :: rest).map (·.height)).get
      ⟨((s0 :: rest).map (·.height)).findIdx p, hilt⟩) = M := by
    have h2 := @List.findIdx_getElem _ p ((s0 :: rest).map (·.height)) hilt
    simp only [hpdef, decide_eq_true_eq] at h2
    simpa [List.get_eq_getElem] using h2
  have hgetmap : ((s0 :: rest).map (·.height)).get
      ⟨((s0 :: rest).map (·.height)).findIdx p, hilt⟩ =
      ((s0 :: rest).get ⟨((s0 :: rest).map (·.height)).findIdx p, hi⟩).height := by
    simp only [List.get_eq_getElem]
    rw [List.getElem_map]
  refine ⟨((s0 :: rest).map (·.height)).findIdx p, hi, ?_, ?_, ?_, ?_⟩
  · show (((s0 :: rest).getD (bestHeightScan ((s0 :: rest).map (·.height)) 0 0 0)
        defaultState).state,
      ((s0 :: rest).getD (bestHeightScan ((s0 :: rest).map (·.height)) 0 0 0)
        defaultState).height) = _
    rw [hidx, List.getD_eq_getElem _ _ hi]
    rfl
  · have hp := heightScore_pos_parse _ (by rw [hscore]; exact hM)
    rw [hscore] at hp
    rw [← hgetmap]
    exact hp
  · intro e he v hv
    have hsle : heightScore e.height ≤ M :=
      heightScore_le_max _ _ (List.mem_map_of_mem _ he)
    by_cases h0 : 0 < v
    · have : heightScore e.height = v := by simp [heightScore, hv, h0]
      omega
    · omega
  · intro j hj hlt
    have hfalse := List.not_of_lt_findIdx hlt
    intro hparse
    rw [← hMdef] at hparse
    have hsc : heightScore ((s0 :: rest).get ⟨j, hj⟩).height = M := by
      rw [heightScore_of_parse _ _ hparse, if_pos hM]
    have hm : ((s0 :: rest).map (·.height))[j] =
        ((s0 :: rest).get ⟨j, hj⟩).height := by
      simp only [List.get_eq_getElem]
      rw [List.getElem_map]
    rw [hm] at hfalse
    simp only [hpdef, decide_eq_false_iff_not] at hfalse
    exact hfalse hsc

/-- Helper: latestIPAddress picks a maximal-height entry whenever some
height parses to a positive value. -/
theorem latestIPSelectsMax_of_pos (addrs : List PrevIPAddress)
    (hM : 0 < maxHeightScore (addrs.map (·.height))) :
    latestIPSelectsMax addrs := by
  have hne : addrs ≠ [] := by
    intro h
    rw [h] at hM
    simp [maxHeightScore] at hM
  obtain ⟨s0, rest, rfl⟩ := List.exists_cons_of_ne_nil hne
  set M := maxHeightScore ((s0 :: rest).map (·.height)) with hMdef
  set p : String → Bool := fun h => decide (heightScore h = M) with hpdef
  have hex : ∃ h ∈ (s0 :: rest).map (·.height), p h = true := by
    obtain ⟨x, hx, hxe⟩ := maxHeightScore_attained _ hM
    refine ⟨x, hx, ?_⟩
    simp only [hpdef, decide_eq_true_eq]
    exact hxe
  have hilt : ((s0 :: rest).map (·.height)).findIdx p <
      ((s0 :: rest).map (·.height)).length := List.findIdx_lt_length_of_exists hex
  have hlen : ((s0 :: rest).map (·.height)).length = (s0 :: rest).length :=
    List.length_map _ _
  have hi : ((s0 :: rest).map (·.height)).findIdx p < (s0 :: rest).length := by
    omega
  have hidx : bestHeightScan ((s0 :: rest).map (·.height)) 0 0 0 =
      ((s0 :: rest).map (·.height)).findIdx p := by
    rw [bestHeightScan_spec, if_pos hM]
  have hscore : heightScore (((s0 :: rest).map (·.height)).get
      ⟨((s0 :: rest).map (·.height)).findIdx p, hilt⟩) = M := by
    have h2 := @List.findIdx_getElem _ p ((s0 :: rest).map (·.height)) hilt
    simp only [hpdef, decide_eq_true_eq] at h2
    simpa [List.get_eq_getElem] using h2
  have hgetmap : ((s0 :: rest).map (·.height)).get
      ⟨((s0 :: rest).map (·.height)).findIdx p, hilt⟩ =
      ((s0 :: rest).get ⟨((s0 :: rest).map (·.height)).findIdx p, hi⟩).height := by
    simp only [List.get_eq_getElem]
    rw [List.getElem_map]
  refine ⟨((s0 :: rest).map (·.height)).findIdx p, hi, ?_, ?_, ?_, ?_⟩
  · show ((s0 :: rest).getD (bestHeightScan ((s0 :: rest).map (·.height)) 0 0 0)
        defaultPrevIP).address = _
    rw [hidx, List.getD_eq_getElem _ _ hi]
    rfl
  · have hp := heightScore_pos_parse _ (by rw [hscore]; exact hM)
    rw [hscore] at hp
    rw [← hgetmap]
    exact hp
  · intro e he v hv
    have hsle : heightScore e.height ≤ M :=
      heightScore_le_max _ _ (List.mem_map_of_mem _ he)
    by_cases h0 : 0 < v
    · have : heightScore e.height = v := by simp [heightScore, hv, h0]
      omega
    · omega
  · intro j hj hlt
    have hfalse := List.not_of_lt_findIdx hlt
    intro hparse
    rw [← hMdef] at hparse
    have hsc : heightScore ((s0 :: rest).get ⟨j, hj⟩).height = M := by
      rw [heightScore_of_parse _ _ hparse, if_pos hM]
    have hm : ((s0 :: rest).map (·.height))[j] =
        ((s0 :: rest).get ⟨j, hj⟩).height := by
      simp only [List.get_eq_getElem]
      rw [List.getElem_map]
    rw [hm] at hfalse
    simp only [hpdef, decide_eq_false_iff_not] at hfalse
    exact hfalse hsc

/-- C2 counterexample: when every height parses non-positively the scan
never updates its accumulator, so `latestState` returns the first entry
even though a later entry has the numerically maximal parsed height. -/
theorem latestState_counterexample :
    latestState [⟨"A", "-2"⟩, ⟨"B", "-1"⟩] = ("A", "-2") ∧
    parseInt64 "-2" = some (-2) ∧
    parseInt64 "-1" = some (-1) ∧
    ((-2 : Int) < -1) ∧
    latestState [⟨"A", "-2"⟩, ⟨"B", "-1"⟩] ≠ ("B", "-1") := by
  refine ⟨by decide, by decide, by decide, by decide, by decide⟩

/-- C2 as amended: whenever some entry's height parses (base 10, 64-bit) to
a positive value — true of every real chain height — `latestState` returns
the state and height of the earliest entry whose parsed height is
numerically maximal, regardless of its position, and `latestIPAddress`
likewise returns the address of the earliest such entry; the S1 history
derives `("ACTIVE", "890403")`. -/
theorem latest_by_height (states : List SupernodeState)
    (addrs : List PrevIPAddress) :
    (0 < maxHeightScore (states.map (·.height)) → latestSelectsMax states) ∧
    (0 < maxHeightScore (addrs.map (·.height)) → latestIPSelectsMax addrs) ∧
    latestState s1History = ("ACTIVE", "890403") := by
  refine ⟨latestSelectsMax_of_pos states, latestIPSelectsMax_of_pos addrs, by decide⟩

/-- Witness for C2 (amended) at the S1 history and a one-entry IP history. -/
theorem latest_by_height_witness :
    latestSelectsMax s1History ∧ latestIPSelectsMax [⟨"1.2.3.4:4444", "10"⟩] := by
  refine ⟨(latest_by_height s1History []).1 (by decide),
    (latest_by_height [] [⟨"1.2.3.4:4444", "10"⟩]).2.1 (by decide)⟩

/-- C10: implicit edge behavior of the latest-by-height scan.  When no
entry's height parses to a strictly positive value the accumulator (index
0, height 0) never updates and the first entry is returned, for both
`latestState` and `latestIPAddress`; when the maximum is positive the
selected index is the first index attaining it (`List.findIdx`), so on a
tie the earlier-indexed entry wins — checked concretely on two entries
sharing height 5. -/
theorem latest_by_height_edge (states : List SupernodeState)
    (addrs : List PrevIPAddress) :
    (states ≠ [] → (∀ e ∈ states, ∀ v, parseInt64 e.height = some v → v ≤ 0) →
      latestState states =
        ((states.headD defaultState).state, (states.headD defaultState).height)) ∧
    (addrs ≠ [] → (∀ e ∈ addrs, ∀ v, parseInt64 e.height = some v → v ≤ 0) →
      latestIPAddress addrs = (addrs.headD defaultPrevIP).address) ∧
    (0 < maxHeightScore (states.map (·.height)) →
      bestHeightScan (states.map (·.height)) 0 0 0 =
        (states.map (·.height)).findIdx
          (fun h => decide (heightScore h = maxHeightScore (states.map (·.height))))) ∧
    latestState [⟨"X", "5"⟩, ⟨"Y", "5"⟩] = ("X", "5") ∧
    latestState [⟨"X", "5"⟩, ⟨"Y", "5"⟩] ≠ ("Y", "5") := by
  refine ⟨?_, ?_, ?_, by decide, by decide⟩
  · intro hne hall
    obtain ⟨s0, rest, rfl⟩ := List.exists_cons_of_ne_nil hne
    have hzero : ∀ h ∈ (s0 :: rest).map (·.height), heightScore h = 0 := by
      intro h hh
      obtain ⟨e, he, rfl⟩ := List.mem_map.mp hh
      cases hp : parseInt64 e.height with
      | none => simp [heightScore, hp]
      | some v =>
        have hv := hall e he v hp
        rw [heightScore_of_parse _ _ hp, if_neg (by omega)]
    have hM0 : maxHeightScore ((s0 :: rest).map (·.height)) = 0 :=
      le_antisymm
        (maxHeightScore_le _ 0 (le_refl 0) (fun h hh => le_of_eq (hzero h hh)))
        (maxHeightScore_nonneg _)
    show (((s0 :: rest).getD (bestHeightScan ((s0 :: rest).map (·.height)) 0 0 0)
        defaultState).state,
      ((s0 :: rest).getD (bestHeightScan ((s0 :: rest).map (·.height)) 0 0 0)
        defaultState).height) = _
    rw [bestHeightScan_spec, hM0, if_neg (lt_irrefl 0)]
    rfl
  · intro hne hall
    obtain ⟨s0, rest, rfl⟩ := List.exists_cons_of_ne_nil hne
    have hzero : ∀ h ∈ (s0 :: rest).map (·.height), heightScore h = 0 := by
      intro h hh
      obtain ⟨e, he, rfl⟩ := List.mem_map.mp hh
      cases hp : parseInt64 e.height with
      | none => simp [heightScore, hp]
      | some v =>
        have hv := hall e he v hp
        rw [heightScore_of_parse _ _ hp, if_neg (by omega)]
    have hM0 : maxHeightScore ((s0 :: rest).map (·.height)) = 0 :=
      le_antisymm
        (maxHeightScore_le _ 0 (le_refl 0) (fun h hh => le_of_eq (hzero h hh)))
        (maxHeightScore_nonneg _)
    show ((s0 :: rest).getD (bestHeightScan ((s0 :: rest).map (·.height)) 0 0 0)
        defaultPrevIP).address = _
    rw [bestHeightScan_spec, hM0, if_neg (lt_irrefl 0)]
    rfl
  · intro h
    rw [bestHeightScan_spec, if_pos h]

/-- Witness for C10 at concrete inputs. -/
theorem latest_by_height_edge_witness :
    latestState [⟨"A", "-7"⟩] = ("A", "-7") := by
  refine (latest_by_height_edge [⟨"A", "-7"⟩] []).1 (by decide) ?_
  intro e he v hv
  have he2 : e = (⟨"A", "-7"⟩ : SupernodeState) := by simpa using he
  subst he2
  have hp : parseInt64 (SupernodeState.mk "A" "-7").height = some (-7) := by decide
  rw [hp] at hv
  injection hv with h
  omega

/-- Witness for C4 at a concrete no-transfer transaction. -/
theorem extractTransferFlow_cascade_witness :
    extractTransferFlow "creator1" "snacct" "finalize" [] [] "module1" "sig1" = none :=
  (extractTransferFlow_cascade "creator1" "snacct" "finalize" [] [] "module1" "sig1").2.2.2.1
    rfl

/-- Helper: the hostname scan factors into the structural scan and the
two character-presence flags. -/
theorem hostScan_factor (cs : List Char) :
    ∀ (prev : Option Char) (hl hd : Bool),
      hostScan prev hl hd cs =
        (structOk prev cs && (hl || cs.any isAlphaCh) &&
          (hd || cs.any (fun x => decide (x = '.')))) := by
  induction cs with
  | nil => intro prev hl hd; simp [hostScan, structOk]
  | cons c rest ih =>
    intro prev hl hd
    by_cases ha : isAlphaCh c = true
    · have hcd : c ≠ '.' := by intro h; subst h; exact absurd ha (by decide)
      simp [hostScan, structOk, ha, ih, hcd]
    · have ha2 : isAlphaCh c = false := by simpa using ha
      by_cases hdot : c = '.'
      · subst hdot
        by_cases hguard : prev = none ∨ rest = [] ∨ prev = some '.'
        · simp [hostScan, structOk, ha2, hguard]
        · simp [hostScan, structOk, ha2, hguard, ih]
      · by_cases hdig : isDigitCh c = true
        · simp [hostScan, structOk, ha2, hdot, hdig, ih]
        · have hdig2 : isDigitCh c = false := by simpa using hdig
          by_cases hhy : c = '-'
          · subst hhy
            by_cases hguard : prev = none ∨ rest = []
            · simp [hostScan, structOk, ha2, hdig2, hguard]
            · simp [hostScan, structOk, ha2, hdig2, hguard, ih]
          · simp [hostScan, structOk, ha2, hdot, hdig2, hhy]

/-- Helper: the structural scan accepts exactly the strings with valid
characters, valid dot/hyphen boundaries, and no consecutive dots. -/
theorem structOk_iff (cs : List Char) :
    ∀ prev : Option Char,
      structOk prev cs = true ↔
        ((∀ c ∈ cs, validHostCh c = true) ∧ headOk prev cs ∧ lastOk cs ∧
         List.Chain' (fun a b => ¬(a = '.' ∧ b = '.')) cs) := by
  induction cs with
  | nil => intro prev; simp [structOk, headOk, lastOk]
  | cons c rest ih =>
    intro prev
    by_cases ha : isAlphaCh c = true
    · have hcd : c ≠ '.' := by intro h; subst h; exact absurd ha (by decide)
      have hch : c ≠ '-' := by intro h; subst h; exact absurd ha (by decide)
      have hv : validHostCh c = true := by simp [validHostCh, ha]
      cases rest with
      | nil => simp [structOk, ha, headOk, lastOk, hv, hcd, hch]
      | cons c2 r2 =>
        rw [show structOk prev (c :: c2 :: r2) = structOk (some c) (c2 :: r2) from by
          simp [structOk, ha]]
        rw [ih (some c)]
        simp [headOk, lastOk, List.chain'_cons', hv, hcd, hch]
    · have ha2 : isAlphaCh c = false := by simpa using ha
      by_cases hdot : c = '.'
      · subst hdot
        by_cases hguard : prev = none ∨ rest = [] ∨ prev = some '.'
        · rw [show structOk prev ('.' :: rest) = false from by simp [structOk, ha2, hguard]]
          simp only [Bool.false_eq_true, false_iff]
          intro hcontra
          obtain ⟨hval, hhead, hlast, hchain⟩ := hcontra
          rcases hguard with hg | hg | hg
          · exact (hhead.1 rfl).1 hg
          · subst hg
            exact hlast.1 rfl
          · exact (hhead.1 rfl).2 hg
        · push_neg at hguard
          obtain ⟨hg1, hg2, hg3⟩ := hguard
          obtain ⟨c2, r2, rfl⟩ := List.exists_cons_of_ne_nil hg2
          rw [show structOk prev ('.' :: c2 :: r2) = structOk (some '.') (c2 :: r2) from by
            simp [structOk, ha2, hg1, hg3]]
          rw [ih (some '.')]
          simp [headOk, lastOk, List.chain'_cons', validHostCh, hg1, hg3]
          tauto
      · by_cases hdig : isDigitCh c = true
        · have hcd : c = '.' → False := hdot
          have hch : c ≠ '-' := by
            intro h
            subst h
            exact absurd hdig (by decide)
          have hv : validHostCh c = true := by simp [validHostCh, hdig]
          cases rest with
          | nil => simp [structOk, ha2, hdot, hdig, headOk, lastOk, hv, hdot, hch]
          | cons c2 r2 =>
            rw [show structOk prev (c :: c2 :: r2) = structOk (some c) (c2 :: r2) from by
              simp [structOk, ha2, hdot, hdig]]
            rw [ih (some c)]
            simp [headOk, lastOk, List.chain'_cons', hv, hdot, hch]
        · have hdig2 : isDigitCh c = false := by simpa using hdig
          by_cases hhy : c = '-'
          · subst hhy
            by_cases hguard : prev = none ∨ rest = []
            · rw [show structOk prev ('-' :: rest) = false from by
                simp [structOk, ha2, hdig2, hguard]]
              simp only [Bool.false_eq_true, false_iff]
              intro hcontra
              obtain ⟨hval, hhead, hlast, hchain⟩ := hcontra
              rcases hguard with hg | hg
              · exact hhead.2 rfl hg
              · subst hg
                exact hlast.2 rfl
            · push_neg at hguard
              obtain ⟨hg1, hg2⟩ := hguard
              obtain ⟨c2, r2, rfl⟩ := List.exists_cons_of_ne_nil hg2
              rw [show structOk prev ('-' :: c2 :: r2) = structOk (some '-') (c2 :: r2) from by
                simp [structOk, ha2, hdig2, hg1]]
              rw [ih (some '-')]
              simp [headOk, lastOk, List.chain'_cons', validHostCh, hg1]
          · have hbad : validHostCh c = false := by
              simp [validHostCh, ha2, hdig2, hdot, hhy]
            rw [show structOk prev (c :: rest) = false from by
              simp [structOk, ha2, hdot, hdig2, hhy]]
            simp only [Bool.false_eq_true, false_iff]
            intro hcontra
            have := hcontra.1 c (List.mem_cons_self _ _)
            rw [hbad] at this
            exact Bool.false_ne_true this

/-- Helper: the head boundary condition at the start of the string says the
first character is neither a dot nor a hyphen. -/
theorem headOk_none_iff (cs : List Char) :
    headOk none cs ↔ (∀ c, cs.head? = some c → c ≠ '.' ∧ c ≠ '-') := by
  cases cs with
  | nil => simp [headOk]
  | cons c rest =>
    simp [headOk]

/-- Helper: the last boundary condition says the last character is neither
a dot nor a hyphen. -/
theorem lastOk_iff (cs : List Char) :
    lastOk cs ↔ (∀ c, cs.getLast? = some c → c ≠ '.' ∧ c ≠ '-') := by
  induction cs with
  | nil => simp [lastOk]
  | cons c rest ih =>
    cases rest with
    | nil => simp [lastOk]
    | cons c2 r2 =>
      rw [show lastOk (c :: c2 :: r2) = lastOk (c2 :: r2) from rfl,
        List.getLast?_cons_cons]
      exact ih

/-- C9: host validation.  `isValidHost` accepts a string exactly when Go
`net.ParseIP` (modelled by `goParseIPValid`) parses it, or it is a hostname
of length 1–253 over letters/digits/hyphens/dots with at least one letter,
at least one dot, no leading or trailing dot or hyphen and no consecutive
dots; the S7 examples behave as specified. -/
theorem isValidHost_spec (s : String) :
    (isValidHost s = true ↔ (goParseIPValid s.data = true ∨ specHostname s.data)) ∧
    isValidHost "152.53.138.217" = true ∧
    isValidHost "sn.example.com" = true ∧
    isValidHost "localhost" = false ∧
    isValidHost "SUNUCUIP" = false ∧
    isValidHost "example..com" = false := by
  refine ⟨?_, by decide, by decide, by decide, by decide, by decide⟩
  unfold isValidHost
  by_cases hip : goParseIPValid s.data = true
  · simp [hip]
  · have hip2 : goParseIPValid s.data = false := by simpa using hip
    rw [hip2]
    simp only [Bool.false_eq_true, if_false]
    unfold hostnameValidGo
    by_cases hlen : s.data.length = 0 ∨ 253 < s.data.length
    · rw [if_pos hlen]
      constructor
      · intro h
        exact absurd h (by simp)
      · intro h
        rcases h with h | h
        · exact h.elim
        · obtain ⟨h1, h2, _⟩ := h
          omega
    · rw [if_neg hlen]
      push_neg at hlen
      rw [hostScan_factor]
      simp only [Bool.and_eq_true, Bool.false_or, List.any_eq_true, decide_eq_true_eq]
      rw [structOk_iff, headOk_none_iff, lastOk_iff]
      unfold specHostname
      constructor
      · rintro ⟨⟨⟨hval, hhead, hlast, hchain⟩, halpha⟩, hdot⟩
        right
        refine ⟨by omega, by omega, hval, halpha, ?_, hhead, hlast, hchain⟩
        obtain ⟨x, hx, rfl⟩ := hdot
        exact hx
      · rintro (h | ⟨h1, h2, hval, halpha, hdot, hhead, hlast, hchain⟩)
        · exact h.elim
        · exact ⟨⟨⟨hval, hhead, hlast, hchain⟩, halpha⟩, ⟨'.', hdot, rfl⟩⟩

/-- Witness for C9 at a concrete hostname. -/
theorem isValidHost_spec_witness : specHostname "sn.example.com".data := by
  have h := ((isValidHost_spec "sn.example.com").1.mp (by decide))
  rcases h with h | h
  · exact absurd h (by decide)
  · exact h

/-- Helper: key lookup after a run of row upserts -- the last write to the
key wins, otherwise the store is unchanged. -/
theorem foldl_upsert_lookup (ws : List ActionTransaction) :
    ∀ (st : TxStore) (i : Nat) (t : String),
      (ws.foldl upsertActionTransaction st) i t =
        (lastWriteAt ws i t).or (st i t) := by
  induction ws with
  | nil => intro st i t; simp [lastWriteAt]
  | cons r rest ih =>
    intro st i t
    have hlast : lastWriteAt (r :: rest) i t =
        (lastWriteAt rest i t).or
          (if r.actionID = i ∧ r.txType = t then some r else none) := by
      unfold lastWriteAt
      rw [List.reverse_cons, List.find?_append]
      congr 1
      simp [List.find?]
      by_cases h1 : r.actionID = i
      · by_cases h2 : r.txType = t
        · simp [h1, h2]
        · simp [h1, h2]
      · simp [h1]
    rw [List.foldl_cons, ih, hlast]
    have hup : upsertActionTransaction st r i t =
        if r.actionID = i ∧ r.txType = t then some r else st i t := by
      unfold upsertActionTransaction
      by_cases hc : i = r.actionID ∧ t = r.txType
      · rw [if_pos hc, if_pos ⟨hc.1.symm, hc.2.symm⟩]
      · rw [if_neg hc, if_neg (fun h => hc ⟨h.1.symm, h.2.symm⟩)]
    rw [hup]
    cases hw : lastWriteAt rest i t with
    | some x => simp
    | none =>
      simp only [Option.none_or]
      by_cases hc : r.actionID = i ∧ r.txType = t
      · simp [hc]
      · simp [hc]

/-- Helper: a processing step is the fold of its writes. -/
theorem processAction_eq_foldl (chain : EnrichAction → List ActionTransaction)
    (st : TxStore) (a : EnrichAction) :
    processAction chain st a = (writesOf chain a).foldl upsertActionTransaction st := by
  unfold processAction writesOf
  by_cases h : (chain a).isEmpty
  · simp [h, List.foldl]
  · simp [h]

/-- Helper: key lookup after one processing step. -/
theorem processAction_lookup (chain : EnrichAction → List ActionTransaction)
    (st : TxStore) (a : EnrichAction) (i : Nat) (t : String) :
    (processAction chain st a) i t =
      (lastWriteAt (writesOf chain a) i t).or (st i t) := by
  rw [processAction_eq_foldl, foldl_upsert_lookup]

/-- Helper: every row an action writes carries that action's id. -/
theorem writesOf_keyed (chain : EnrichAction → List ActionTransaction)
    (a : EnrichAction) (hch : ∀ r ∈ chain a, r.actionID = a.actionID) :
    ∀ r ∈ writesOf chain a, r.actionID = a.actionID := by
  intro r hr
  unfold writesOf at hr
  by_cases h : (chain a).isEmpty
  · rw [if_pos h] at hr
    have : r = placeholderRow a := by simpa using hr
    rw [this]
    rfl
  · rw [if_neg h] at hr
    exact hch r hr

/-- Helper: a write list keyed to another id never hits the key. -/
theorem lastWriteAt_eq_none (ws : List ActionTransaction) (j i : Nat) (t : String)
    (hkeys : ∀ r ∈ ws, r.actionID = j) (hne : i ≠ j) :
    lastWriteAt ws i t = none := by
  unfold lastWriteAt
  rw [List.find?_eq_none]
  intro r hr
  have hk := hkeys r (List.mem_reverse.mp hr)
  intro hp
  rw [Bool.and_eq_true, decide_eq_true_eq, decide_eq_true_eq] at hp
  exact hne (hp.1 ▸ hk)

/-- Helper: a processing step leaves other actions' keys unchanged. -/
theorem processAction_other (chain : EnrichAction → List ActionTransaction)
    (st : TxStore) (a : EnrichAction) (i : Nat) (t : String)
    (hch : ∀ r ∈ chain a, r.actionID = a.actionID) (hne : i ≠ a.actionID) :
    (processAction chain st a) i t = st i t := by
  rw [processAction_lookup,
    lastWriteAt_eq_none _ _ _ _ (writesOf_keyed chain a hch) hne, Option.none_or]

/-- Helper: key lookup after processing a run of actions with pairwise
distinct ids: only the action owning the key contributes. -/
theorem fold_process_lookup (chain : EnrichAction → List ActionTransaction)
    (hchain : ∀ b, ∀ r ∈ chain b, r.actionID = b.actionID) :
    ∀ l : List EnrichAction,
      l.Pairwise (fun a b => a.actionID ≠ b.actionID) →
      ∀ (st : TxStore) (i : Nat) (t : String),
        (l.foldl (processAction chain) st) i t =
          match l.find? (fun x => decide (x.actionID = i)) with
          | some a => (lastWriteAt (writesOf chain a) i t).or (st i t)
          | none => st i t := by
  intro l
  induction l with
  | nil => intro _ st i t; simp
  | cons a rest ih =>
    intro hpw st i t
    have hpw2 := List.pairwise_cons.mp hpw
    by_cases hai : a.actionID = i
    · have hfind : (a :: rest).find? (fun x => decide (x.actionID = i)) = some a :=
        List.find?_cons_of_pos _ (by simp [hai])
      have hrest : rest.find? (fun x => decide (x.actionID = i)) = none := by
        rw [List.find?_eq_none]
        intro x hx hpx
        rw [decide_eq_true_eq] at hpx
        exact (hpw2.1 x hx) (hai.trans hpx.symm)
      rw [List.foldl_cons, ih hpw2.2, hrest, hfind, processAction_lookup]
    · have hfind : (a :: rest).find? (fun x => decide (x.actionID = i)) =
        rest.find? (fun x => decide (x.actionID = i)) :=
        List.find?_cons_of_neg _ (by simp [hai])
      have hother : (processAction chain st a) i t = st i t :=
        processAction_other chain st a i t (hchain a) (fun h => hai h.symm)
      rw [List.foldl_cons, ih hpw2.2, hfind]
      cases hf : rest.find? (fun x => decide (x.actionID = i)) with
      | some b => rw [hother]
      | none => rw [hother]

/-- Helper: in a strictly id-sorted list, ids identify elements. -/
theorem sorted_id_unique (l : List EnrichAction)
    (h : l.Pairwise (fun a b => a.actionID < b.actionID)) :
    ∀ a ∈ l, ∀ b ∈ l, a.actionID = b.actionID → a = b := by
  induction l with
  | nil => intro a ha; cases ha
  | cons x rest ih =>
    intro a ha b hb heq
    have hx := List.pairwise_cons.mp h
    rcases List.mem_cons.mp ha with rfl | ha2
    · rcases List.mem_cons.mp hb with rfl | hb2
      · rfl
      · exact absurd heq (by have := hx.1 b hb2; omega)
    · rcases List.mem_cons.mp hb with rfl | hb2
      · exact absurd heq (by have := hx.1 a ha2; omega)
      · exact ih hx.2 a ha2 b hb2 heq

/-- Helper: in a strictly id-sorted list every id is bounded by the last. -/
theorem sorted_le_getLast (l : List EnrichAction) :
    ∀ hne : l ≠ [],
      l.Pairwise (fun a b => a.actionID < b.actionID) →
      ∀ x ∈ l, x.actionID ≤ (l.getLast hne).actionID := by
  induction l with
  | nil => intro hne; exact absurd rfl hne
  | cons a rest ih =>
    intro hne hpw x hx
    have hpw2 := List.pairwise_cons.mp hpw
    cases rest with
    | nil =>
      have : x = a := by simpa using hx
      rw [this]
      exact le_refl _
    | cons b r2 =>
      rw [List.getLast_cons (List.cons_ne_nil b r2)]
      rcases List.mem_cons.mp hx with rfl | hx2
      · have hmem := List.getLast_mem (List.cons_ne_nil b r2)
        have := hpw2.1 _ hmem
        omega
      · exact ih (List.cons_ne_nil b r2) hpw2.2 x hx2

/-- Helper: second component of the per-action (minID, store) fold. -/
theorem batch_fold_snd (chain : EnrichAction → List ActionTransaction)
    (B : List EnrichAction) :
    ∀ (m : Nat) (st : TxStore),
      (B.foldl (fun (acc : Nat × TxStore) a =>
        (a.actionID + 1, processAction chain acc.2 a)) (m, st)).2 =
        B.foldl (processAction chain) st := by
  induction B with
  | nil => intro m st; rfl
  | cons a rest ih => intro m st; rw [List.foldl_cons, List.foldl_cons]; exact ih _ _

/-- Helper: first component of the per-action fold on a non-empty batch --
`minID` ends just past the last processed action. -/
theorem batch_fold_fst (chain : EnrichAction → List ActionTransaction)
    (B : List EnrichAction) :
    ∀ hne : B ≠ [], ∀ (m : Nat) (st : TxStore),
      (B.foldl (fun (acc : Nat × TxStore) a =>
        (a.actionID + 1, processAction chain acc.2 a)) (m, st)).1 =
        (B.getLast hne).actionID + 1 := by
  induction B with
  | nil => intro hne; exact absurd rfl hne
  | cons a rest ih =>
    intro hne m st
    cases rest with
    | nil => rfl
    | cons b r2 =>
      rw [List.foldl_cons, List.getLast_cons (List.cons_ne_nil b r2)]
      exact ih (List.cons_ne_nil b r2) _ _

/-- Helper: processing a batch that does not contain an id leaves that id's
keys unchanged. -/
theorem fold_process_other (chain : EnrichAction → List ActionTransaction)
    (hchain : ∀ b, ∀ r ∈ chain b, r.actionID = b.actionID)
    (B : List EnrichAction)
    (hpw : B.Pairwise (fun a b => a.actionID ≠ b.actionID))
    (st : TxStore) (i : Nat) (t : String)
    (hnotin : ∀ x ∈ B, x.actionID ≠ i) :
    (B.foldl (processAction chain) st) i t = st i t := by
  rw [fold_process_lookup chain hchain B hpw st i t]
  have hnone : B.find? (fun x => decide (x.actionID = i)) = none := by
    rw [List.find?_eq_none]
    intro x hx hpx
    rw [decide_eq_true_eq] at hpx
    exact hnotin x hx hpx
  rw [hnone]

/-- Helper: processing never erases a key: an absent key was absent before. -/
theorem fold_process_none (chain : EnrichAction → List ActionTransaction)
    (hchain : ∀ b, ∀ r ∈ chain b, r.actionID = b.actionID)
    (B : List EnrichAction)
    (hpw : B.Pairwise (fun a b => a.actionID ≠ b.actionID))
    (st : TxStore) (i : Nat) (t : String)
    (h : (B.foldl (processAction chain) st) i t = none) : st i t = none := by
  rw [fold_process_lookup chain hchain B hpw st i t] at h
  cases hf : B.find? (fun x => decide (x.actionID = i)) with
  | none => rw [hf] at h; exact h
  | some b =>
    rw [hf] at h
    dsimp only at h
    cases hw : lastWriteAt (writesOf chain b) i t with
    | some r => rw [hw] at h; exact absurd h (by simp)
    | none => rw [hw] at h; simpa using h

/-- Helper: in a strictly id-sorted list, filtering for ids past the last
element of the `n`-prefix yields exactly the `n`-suffix. -/
theorem filter_gt_getLast_take (l : List EnrichAction) (n : Nat)
    (hl : l.Pairwise (fun a b => a.actionID < b.actionID))
    (hne : l.take n ≠ []) :
    l.filter (fun a => decide (((l.take n).getLast hne).actionID < a.actionID)) =
      l.drop n := by
  have hsplit := List.take_append_drop n l
  set lastId := ((l.take n).getLast hne).actionID with hlastdef
  have hpw2 : List.Pairwise (fun a b => a.actionID < b.actionID)
      (l.take n ++ l.drop n) := by rw [hsplit]; exact hl
  have hcross := (List.pairwise_append.mp hpw2).2.2
  have htakesorted : List.Pairwise (fun a b => a.actionID < b.actionID) (l.take n) :=
    List.Pairwise.sublist (List.take_sublist n l) hl
  have hle : ∀ x ∈ l.take n, x.actionID ≤ lastId :=
    sorted_le_getLast (l.take n) hne htakesorted
  conv_lhs => rw [← hsplit]
  rw [List.filter_append]
  have h1 : (l.take n).filter (fun a => decide (lastId < a.actionID)) = [] := by
    rw [List.filter_eq_nil_iff]
    intro x hx
    simp only [decide_eq_true_eq, not_lt]
    exact hle x hx
  have h2 : (l.drop n).filter (fun a => decide (lastId < a.actionID)) = l.drop n := by
    rw [List.filter_eq_self]
    intro y hy
    simp only [decide_eq_true_eq]
    exact hcross _ (List.getLast_mem hne) _ hy
  rw [h1, h2, List.nil_append]

/-- Helper: one unfolding of the batch loop. -/
theorem enrichLoop_succ (chain : EnrichAction → List ActionTransaction)
    (actions : List EnrichAction) (fuel minID : Nat) (st : TxStore) :
    enrichLoop chain actions (fuel + 1) minID st =
      if (getUnenrichedActions actions st minID 50).isEmpty then st
      else if (getUnenrichedActions actions st minID 50).length < 50 then
        ((getUnenrichedActions actions st minID 50).foldl
          (fun (acc : Nat × TxStore) a =>
            (a.actionID + 1, processAction chain acc.2 a)) (minID, st)).2
      else
        enrichLoop chain actions fuel
          ((getUnenrichedActions actions st minID 50).foldl
            (fun (acc : Nat × TxStore) a =>
              (a.actionID + 1, processAction chain acc.2 a)) (minID, st)).1
          ((getUnenrichedActions actions st minID 50).foldl
            (fun (acc : Nat × TxStore) a =>
              (a.actionID + 1, processAction chain acc.2 a)) (minID, st)).2 := by
  show (let batch := getUnenrichedActions actions st minID 50;
    if batch.isEmpty then st
    else
      let p := batch.foldl
        (fun (acc : Nat × TxStore) a => (a.actionID + 1, processAction chain acc.2 a))
        (minID, st)
      if batch.length < 50 then p.2 else enrichLoop chain actions fuel p.1 p.2) = _
  by_cases hb : (getUnenrichedActions actions st minID 50).isEmpty
  · simp only [hb, if_true]
  · have hb2 : (getUnenrichedActions actions st minID 50).isEmpty = false := by
      simpa using hb
    simp only [hb2, Bool.false_eq_true, if_false]

/-- Helper: with sufficient fuel the batched enricher loop is a single fold
over the unenriched actions at or past `minID`, in ascending id order. -/
theorem enrichLoop_flat (chain : EnrichAction → List ActionTransaction)
    (actions : List EnrichAction)
    (hchain : ∀ b, ∀ r ∈ chain b, r.actionID = b.actionID)
    (hsorted : actions.Pairwise (fun a b => a.actionID < b.actionID)) :
    ∀ (fuel minID : Nat) (st : TxStore),
      (actions.filter (fun a => decide (minID ≤ a.actionID) &&
        (st a.actionID "register").isNone)).length + 1 ≤ fuel →
      enrichLoop chain actions fuel minID st =
        (actions.filter (fun a => decide (minID ≤ a.actionID) &&
          (st a.actionID "register").isNone)).foldl (processAction chain) st := by
  intro fuel
  induction fuel with
  | zero => intro minID st hfe; omega
  | succ fuel ih =>
    intro minID st hfe
    rw [enrichLoop_succ]
    rw [show getUnenrichedActions actions st minID 50 =
      (actions.filter (fun a => decide (minID ≤ a.actionID) &&
        (st a.actionID "register").isNone)).take 50 from rfl]
    by_cases hb : ((actions.filter (fun a => decide (minID ≤ a.actionID) &&
        (st a.actionID "register").isNone)).take 50).isEmpty
    · rw [if_pos hb]
      have hnil : actions.filter (fun a => decide (minID ≤ a.actionID) &&
          (st a.actionID "register").isNone) = [] := by
        rcases List.take_eq_nil_iff.mp (List.isEmpty_iff.mp hb) with h50 | hl
        · exact absurd h50 (by decide)
        · exact hl
      rw [hnil]
      rfl
    · rw [if_neg hb]
      have hbne : (actions.filter (fun a => decide (minID ≤ a.actionID) &&
          (st a.actionID "register").isNone)).take 50 ≠ [] := by
        intro h
        rw [h] at hb
        exact hb rfl
      have hfsorted : (actions.filter (fun a => decide (minID ≤ a.actionID) &&
          (st a.actionID "register").isNone)).Pairwise
          (fun a b => a.actionID < b.actionID) :=
        List.Pairwise.sublist (List.filter_sublist actions) hsorted
      have hbsorted : ((actions.filter (fun a => decide (minID ≤ a.actionID) &&
          (st a.actionID "register").isNone)).take 50).Pairwise
          (fun a b => a.actionID < b.actionID) :=
        List.Pairwise.sublist (List.take_sublist _ _) hfsorted
      have hbpw : ((actions.filter (fun a => decide (minID ≤ a.actionID) &&
          (st a.actionID "register").isNone)).take 50).Pairwise
          (fun a b => a.actionID ≠ b.actionID) :=
        hbsorted.imp (fun h => Nat.ne_of_lt h)
      have hlast_mem := List.getLast_mem hbne
      have hlast_filter : ((actions.filter (fun a => decide (minID ≤ a.actionID) &&
          (st a.actionID "register").isNone)).take 50).getLast hbne ∈
          actions.filter (fun a => decide (minID ≤ a.actionID) &&
            (st a.actionID "register").isNone) :=
        List.take_subset _ _ hlast_mem
      have hlastP := List.of_mem_filter hlast_filter
      rw [Bool.and_eq_true, decide_eq_true_eq] at hlastP
      have hble := sorted_le_getLast _ hbne hbsorted
      by_cases hshort : ((actions.filter (fun a => decide (minID ≤ a.actionID) &&
          (st a.actionID "register").isNone)).take 50).length < 50
      · rw [if_pos hshort, batch_fold_snd]
        have hlen : (actions.filter (fun a => decide (minID ≤ a.actionID) &&
            (st a.actionID "register").isNone)).length < 50 := by
          rw [List.length_take] at hshort
          omega
        rw [List.take_of_length_le (le_of_lt hlen)]
      · rw [if_neg hshort, batch_fold_fst chain _ hbne, batch_fold_snd]
        have hlen50 : ((actions.filter (fun a => decide (minID ≤ a.actionID) &&
            (st a.actionID "register").isNone)).take 50).length = 50 := by
          rw [List.length_take] at hshort ⊢
          omega
        have h50le : 50 ≤ (actions.filter (fun a => decide (minID ≤ a.actionID) &&
            (st a.actionID "register").isNone)).length := by
          rw [List.length_take] at hlen50
          omega
        -- the next iteration's unenriched list is the dropped suffix
        have hA : ∀ a ∈ actions,
            (decide ((((actions.filter (fun x => decide (minID ≤ x.actionID) &&
                (st x.actionID "register").isNone)).take 50).getLast hbne).actionID + 1 ≤
                a.actionID) &&
              ((((actions.filter (fun x => decide (minID ≤ x.actionID) &&
                (st x.actionID "register").isNone)).take 50).foldl (processAction chain) st)
                a.actionID "register").isNone) =
            (decide ((((actions.filter (fun x => decide (minID ≤ x.actionID) &&
                (st x.actionID "register").isNone)).take 50).getLast hbne).actionID <
                a.actionID) &&
              (decide (minID ≤ a.actionID) && (st a.actionID "register").isNone)) := by
          intro a ha
          by_cases hgt : (((actions.filter (fun x => decide (minID ≤ x.actionID) &&
              (st x.actionID "register").isNone)).take 50).getLast hbne).actionID <
              a.actionID
          · have hst : (((actions.filter (fun x => decide (minID ≤ x.actionID) &&
                (st x.actionID "register").isNone)).take 50).foldl (processAction chain) st)
                a.actionID "register" = st a.actionID "register" :=
              fold_process_other chain hchain _ hbpw st _ _
                (fun x hx => by have := hble x hx; omega)
            rw [hst]
            have h1 : decide ((((actions.filter (fun x => decide (minID ≤ x.actionID) &&
                (st x.actionID "register").isNone)).take 50).getLast hbne).actionID + 1 ≤
                a.actionID) = true := by
              simp only [decide_eq_true_eq]
              omega
            have h2 : decide (minID ≤ a.actionID) = true := by
              simp only [decide_eq_true_eq]
              have := hlastP.1
              omega
            have h3 : decide ((((actions.filter (fun x => decide (minID ≤ x.actionID) &&
                (st x.actionID "register").isNone)).take 50).getLast hbne).actionID <
                a.actionID) = true := by
              simp only [decide_eq_true_eq]
              exact hgt
            rw [h1, h2, h3]
            simp
          · have h1 : decide ((((actions.filter (fun x => decide (minID ≤ x.actionID) &&
                (st x.actionID "register").isNone)).take 50).getLast hbne).actionID + 1 ≤
                a.actionID) = false := by
              simp only [decide_eq_false_iff_not]
              omega
            have h3 : decide ((((actions.filter (fun x => decide (minID ≤ x.actionID) &&
                (st x.actionID "register").isNone)).take 50).getLast hbne).actionID <
                a.actionID) = false := by
              simp only [decide_eq_false_iff_not]
              exact hgt
            rw [h1, h3]
            simp
        have hnext : actions.filter (fun a =>
            decide ((((actions.filter (fun x => decide (minID ≤ x.actionID) &&
              (st x.actionID "register").isNone)).take 50).getLast hbne).actionID + 1 ≤
              a.actionID) &&
            ((((actions.filter (fun x => decide (minID ≤ x.actionID) &&
              (st x.actionID "register").isNone)).take 50).foldl (processAction chain) st)
              a.actionID "register").isNone) =
            (actions.filter (fun x => decide (minID ≤ x.actionID) &&
              (st x.actionID "register").isNone)).drop 50 := by
          rw [List.filter_congr hA, ← List.filter_filter]
          exact filter_gt_getLast_take _ 50 hfsorted hbne
        rw [ih _ _ (by rw [hnext, List.length_drop]; omega), hnext]
        conv_rhs => rw [← List.take_append_drop 50
          (actions.filter (fun x => decide (minID ≤ x.actionID) &&
            (st x.actionID "register").isNone)), List.foldl_append]

/-- Helper: one enricher pass is the fold over the unenriched actions. -/
theorem runEnricher_flat (chain : EnrichAction → List ActionTransaction)
    (actions : List EnrichAction)
    (hchain : ∀ b, ∀ r ∈ chain b, r.actionID = b.actionID)
    (hsorted : actions.Pairwise (fun a b => a.actionID < b.actionID))
    (startID : Nat) (st : TxStore) :
    runActionTxEnricher chain actions startID st =
      (actions.filter (fun a => decide (startID ≤ a.actionID) &&
        (st a.actionID "register").isNone)).foldl (processAction chain) st := by
  unfold runActionTxEnricher
  apply enrichLoop_flat chain actions hchain hsorted
  have := List.length_filter_le (fun a => decide (startID ≤ a.actionID) &&
    (st a.actionID "register").isNone) actions
  omega

/-- Helper: the first element of a filtered sorted list found by id is the
element itself. -/
theorem find_id_in_filter (actions : List EnrichAction)
    (hsorted : actions.Pairwise (fun a b => a.actionID < b.actionID))
    (Q : EnrichAction → Bool) (a : EnrichAction)
    (hmem : a ∈ actions.filter Q) :
    (actions.filter Q).find? (fun x => decide (x.actionID = a.actionID)) = some a := by
  cases hfb : (actions.filter Q).find? (fun x => decide (x.actionID = a.actionID)) with
  | none =>
    rw [List.find?_eq_none] at hfb
    exact (hfb a hmem (by simp)).elim
  | some b =>
    have hpb := List.find?_some hfb
    rw [decide_eq_true_eq] at hpb
    have hmb := List.mem_of_find?_eq_some hfb
    rw [sorted_id_unique actions hsorted b (List.mem_of_mem_filter hmb) a
      (List.mem_of_mem_filter hmem) hpb]

/-- Helper: one enricher pass is idempotent: a second pass over the same
chain data re-upserts identical rows and changes nothing. -/
theorem runEnricher_idem (chain : EnrichAction → List ActionTransaction)
    (actions : List EnrichAction)
    (hchain : ∀ b, ∀ r ∈ chain b, r.actionID = b.actionID)
    (hsorted : actions.Pairwise (fun a b => a.actionID < b.actionID))
    (startID : Nat) (st : TxStore) :
    runActionTxEnricher chain actions startID
        (runActionTxEnricher chain actions startID st) =
      runActionTxEnricher chain actions startID st := by
  rw [runEnricher_flat chain actions hchain hsorted startID st]
  rw [runEnricher_flat chain actions hchain hsorted startID _]
  have hpwP : (actions.filter (fun a => decide (startID ≤ a.actionID) &&
      (st a.actionID "register").isNone)).Pairwise
      (fun a b => a.actionID ≠ b.actionID) :=
    (List.Pairwise.sublist (List.filter_sublist actions) hsorted).imp
      (fun h => Nat.ne_of_lt h)
  have hpwP2 : (actions.filter (fun a => decide (startID ≤ a.actionID) &&
      (((actions.filter (fun x => decide (startID ≤ x.actionID) &&
        (st x.actionID "register").isNone)).foldl (processAction chain) st)
        a.actionID "register").isNone)).Pairwise
      (fun a b => a.actionID ≠ b.actionID) :=
    (List.Pairwise.sublist (List.filter_sublist actions) hsorted).imp
      (fun h => Nat.ne_of_lt h)
  funext i t
  rw [fold_process_lookup chain hchain _ hpwP2 _ i t]
  cases hf : (actions.filter (fun a => decide (startID ≤ a.actionID) &&
      (((actions.filter (fun x => decide (startID ≤ x.actionID) &&
        (st x.actionID "register").isNone)).foldl (processAction chain) st)
        a.actionID "register").isNone)).find?
      (fun x => decide (x.actionID = i)) with
  | none => rfl
  | some a =>
    dsimp only
    have hpa := List.find?_some hf
    rw [decide_eq_true_eq] at hpa
    have hmem := List.mem_of_find?_eq_some hf
    have hmema : a ∈ actions := List.mem_of_mem_filter hmem
    have hPa := List.of_mem_filter hmem
    rw [Bool.and_eq_true, decide_eq_true_eq, Option.isNone_iff_eq_none] at hPa
    have hregst : st a.actionID "register" = none :=
      fold_process_none chain hchain _ hpwP st _ _ hPa.2
    have hmemP : a ∈ actions.filter (fun x => decide (startID ≤ x.actionID) &&
        (st x.actionID "register").isNone) := by
      rw [List.mem_filter]
      refine ⟨hmema, ?_⟩
      rw [Bool.and_eq_true, decide_eq_true_eq]
      exact ⟨hPa.1, by rw [hregst]; rfl⟩
    have hfindP := find_id_in_filter actions hsorted _ a hmemP
    have hst : ((actions.filter (fun x => decide (startID ≤ x.actionID) &&
        (st x.actionID "register").isNone)).foldl (processAction chain) st) i t =
        (lastWriteAt (writesOf chain a) i t).or (st i t) := by
      rw [hpa] at hfindP
      rw [fold_process_lookup chain hchain _ hpwP st i t, hfindP]
    rw [hst]
    cases lastWriteAt (writesOf chain a) i t <;> simp

/-- Helper: N passes equal one pass. -/
theorem runEnricher_iterate (chain : EnrichAction → List ActionTransaction)
    (actions : List EnrichAction)
    (hchain : ∀ b, ∀ r ∈ chain b, r.actionID = b.actionID)
    (hsorted : actions.Pairwise (fun a b => a.actionID < b.actionID))
    (startID : Nat) (st : TxStore) :
    ∀ n, 1 ≤ n →
      Nat.iterate (runActionTxEnricher chain actions startID) n st =
        runActionTxEnricher chain actions startID st := by
  intro n
  induction n with
  | zero => intro h; omega
  | succ n ihn =>
    intro _
    by_cases hn : 1 ≤ n
    · rw [Function.iterate_succ_apply', ihn hn,
        runEnricher_idem chain actions hchain hsorted startID st]
    · have hn0 : n = 0 := by omega
      subst hn0
      rfl

/-- C5: enricher idempotence via the sentinel row.  Over an ascending-id
action table and fixed chain data (each returned row keyed to its action),
(1) an action in range for which the chain returns no transactions and
which has no stored rows ends one pass with exactly one row: the
`register`-typed sentinel `_NO_TX_FOUND_`; (2) an action having any
`register` row is excluded from `GetUnenrichedActions`; (3) running the
enricher N ≥ 1 times produces exactly the store one run produces. -/
theorem enricher_idempotent (chain : EnrichAction → List ActionTransaction)
    (actions : List EnrichAction) (startID : Nat) (st : TxStore)
    (a : EnrichAction)
    (hsorted : actions.Pairwise (fun x y => x.actionID < y.actionID))
    (hchain : ∀ b, ∀ r ∈ chain b, r.actionID = b.actionID) :
    (a ∈ actions → startID ≤ a.actionID → chain a = [] →
      (∀ t, st a.actionID t = none) →
      (∀ t, runActionTxEnricher chain actions startID st a.actionID t =
        if t = "register" then some (placeholderRow a) else none)) ∧
    (∀ r : ActionTransaction, st a.actionID "register" = some r →
      a ∉ getUnenrichedActions actions st startID 50) ∧
    (∀ n, 1 ≤ n →
      Nat.iterate (runActionTxEnricher chain actions startID) n st =
        runActionTxEnricher chain actions startID st) := by
  refine ⟨?_, ?_, runEnricher_iterate chain actions hchain hsorted startID st⟩
  · intro hmem hstart hempty hstnone t
    rw [runEnricher_flat chain actions hchain hsorted startID st]
    have hpwP : (actions.filter (fun x => decide (startID ≤ x.actionID) &&
        (st x.actionID "register").isNone)).Pairwise
        (fun x y => x.actionID ≠ y.actionID) :=
      (List.Pairwise.sublist (List.filter_sublist actions) hsorted).imp
        (fun h => Nat.ne_of_lt h)
    have hmemP : a ∈ actions.filter (fun x => decide (startID ≤ x.actionID) &&
        (st x.actionID "register").isNone) := by
      rw [List.mem_filter]
      refine ⟨hmem, ?_⟩
      rw [Bool.and_eq_true, decide_eq_true_eq]
      exact ⟨hstart, by rw [hstnone "register"]; rfl⟩
    have hfindP := find_id_in_filter actions hsorted _ a hmemP
    rw [fold_process_lookup chain hchain _ hpwP st a.actionID t, hfindP]
    dsimp only
    rw [hstnone t, Option.or_none]
    rw [show writesOf chain a = [placeholderRow a] from by
      unfold writesOf
      rw [hempty]
      rfl]
    unfold lastWriteAt
    by_cases ht : t = "register"
    · rw [if_pos ht, ht]
      simp [List.find?, placeholderRow]
    · rw [if_neg ht]
      simp only [List.reverse_cons, List.reverse_nil, List.nil_append]
      rw [List.find?_cons_of_neg _ (by
        simp [placeholderRow]
        intro h
        exact absurd h.symm ht)]
      rfl
  · intro r hr hmem
    have hsub : a ∈ actions.filter (fun x => decide (startID ≤ x.actionID) &&
        (st x.actionID "register").isNone) :=
      List.take_subset _ _ hmem
    have hP := List.of_mem_filter hsub
    rw [Bool.and_eq_true] at hP
    rw [hr] at hP
    exact absurd hP.2 (by simp)

/-- Witness for C5 at a one-action table with an empty chain. -/
theorem enricher_idempotent_witness :
    runActionTxEnricher (fun _ => []) [⟨1, "creator1", "cascade", "PENDING", "sn1", 5⟩]
        0 (fun _ _ => none) 1 "register" =
      some (placeholderRow ⟨1, "creator1", "cascade", "PENDING", "sn1", 5⟩) := by
  have h := (enricher_idempotent (fun _ => [])
      [⟨1, "creator1", "cascade", "PENDING", "sn1", 5⟩] 0 (fun _ _ => none)
      ⟨1, "creator1", "cascade", "PENDING", "sn1", 5⟩
      (by simp)
      (by intro b r hr; exact absurd hr (by simp))).1
    (by simp) (by omega) rfl (fun t => rfl) "register"
  simpa using h

end Lumescope
